import Mathlib

/-!
Verification development for the chickpea-chips order processor
(`src/app.py`).  Python strings are modelled as `List Char`; Python `int`
as `Int` (quantities, prices, totals); Python `None` as `Option.none`.
The regular expressions used by `OrderParser._basic_parse` and the
response-decoding strategies are compiled by hand into executable
scanners that reproduce Python `re` semantics (leftmost search,
non-overlapping `findall`, greedy `\d+`/`\s*`, ordered alternation,
`re.IGNORECASE` where the source passes it).  All functions are total;
fuel arguments are bounded by the input length plus one, which is an
upper bound on the number of scan steps since every step consumes at
least one character.
-/

/-- Python string type: a list of characters. -/
abbrev Str := List Char

/-- Python whitespace class `\s` (ASCII part): space, tab, newline,
carriage return, vertical tab, form feed. -/
def py_space (c : Char) : Bool :=
  c = ' ' || c = '\t' || c = '\n' || c = '\r' || c = '\x0b' || c = '\x0c'

/-- Python `str.strip()`: remove leading and trailing whitespace. -/
def py_strip (l : Str) : Str :=
  ((l.dropWhile py_space).reverse.dropWhile py_space).reverse

/-- Python `str.lower()` (ASCII case folding, which is all the source needs). -/
def lower_str (l : Str) : Str := l.map Char.toLower

/-- Python `str.upper()` (ASCII case folding). -/
def upper_str (l : Str) : Str := l.map Char.toUpper

/-- Python `str.isdigit()` for ASCII strings: nonempty and all digits. -/
def is_digit_str (l : Str) : Bool := !l.isEmpty && l.all Char.isDigit

/-- Python `int(...)` on a digit string. -/
def nat_of_digits (l : Str) : Nat := l.foldl (fun acc c => 10 * acc + (c.toNat - 48)) 0

/-- Case-sensitive "text starts with pattern" (first arg is the pattern). -/
def starts_with_str : Str → Str → Bool
  | [], _ => true
  | _ :: _, [] => false
  | p :: ps, c :: cs => p = c && starts_with_str ps cs

/-- Case-insensitive "text starts with pattern" (first arg is the pattern),
mirroring literal matching under `re.IGNORECASE`. -/
def starts_with_ci : Str → Str → Bool
  | [], _ => true
  | _ :: _, [] => false
  | p :: ps, c :: cs => Char.toLower p = Char.toLower c && starts_with_ci ps cs

/-- Python substring test `needle in hay`. -/
def contains_sub (needle : Str) : Str → Bool
  | [] => starts_with_str needle []
  | c :: tl => starts_with_str needle (c :: tl) || contains_sub needle tl

/-- Python `any(keyword in hay for keyword in kws)`. -/
def any_kw (kws : List Str) (hay : Str) : Bool := kws.any fun kw => contains_sub kw hay

/-- Product entity of the catalog (`@dataclass Product`). -/
structure Product where
  code : Str
  name : Str
  size : Str
  price : Int
deriving DecidableEq, Repr

/-- One order line (`@dataclass OrderItem`). -/
structure OrderItem where
  product : Product
  quantity : Int
deriving DecidableEq, Repr

/-- Parse result (`@dataclass ParsedOrder`). -/
structure ParsedOrder where
  customer_name : Option Str
  items : List OrderItem
  total_amount : Int
  raw_message : Str
  payment_method : Option Str
  customer_location : Option Str
  auto_sold_by : Option Str
deriving DecidableEq, Repr

/-- The fixed product catalog `PRODUCTS` (a dict keyed by code). -/
def PRODUCTS : List (Str × Product) :=
  [("P-CHZ".toList, ⟨"P-CHZ".toList, "Cheese".toList, "Pouch".toList, 150⟩),
   ("P-SC".toList, ⟨"P-SC".toList, "Sour Cream".toList, "Pouch".toList, 150⟩),
   ("P-BBQ".toList, ⟨"P-BBQ".toList, "BBQ".toList, "Pouch".toList, 150⟩),
   ("P-OG".toList, ⟨"P-OG".toList, "Original".toList, "Pouch".toList, 150⟩),
   ("2L-CHZ".toList, ⟨"2L-CHZ".toList, "Cheese".toList, "Tub".toList, 290⟩),
   ("2L-SC".toList, ⟨"2L-SC".toList, "Sour Cream".toList, "Tub".toList, 290⟩),
   ("2L-BBQ".toList, ⟨"2L-BBQ".toList, "BBQ".toList, "Tub".toList, 290⟩),
   ("2L-OG".toList, ⟨"2L-OG".toList, "Original".toList, "Tub".toList, 290⟩)]

/-- Dict lookup in an association list (used for `PRODUCTS[code]` /
`code in PRODUCTS`). -/
def alist_lookup (k : Str) : List (Str × Product) → Option Product
  | [] => none
  | (k₀, v₀) :: tl => if k = k₀ then some v₀ else alist_lookup k tl

/-- Catalog lookup, `PRODUCTS.get(code)`. -/
def lookup_product (code : Str) : Option Product := alist_lookup code PRODUCTS

/-- The eight product-code literals, in the order they appear in the
alternation of the `_basic_parse` regexes. -/
def code_lits : List Str :=
  ["P-CHZ".toList, "P-SC".toList, "P-BBQ".toList, "P-OG".toList,
   "2L-CHZ".toList, "2L-SC".toList, "2L-BBQ".toList, "2L-OG".toList]

/-- Ordered alternation of case-insensitive literals: returns the matched
characters (in their original case, as a regex group would capture them)
and the rest of the text.  At most one alternative can match because no
code is a prefix of another. -/
def match_alt_ci : List Str → Str → Option (Str × Str)
  | [], _ => none
  | lit :: rest, l =>
    if starts_with_ci lit l then some (l.take lit.length, l.drop lit.length)
    else match_alt_ci rest l

/-- Maximal `\s*` munch. -/
def drop_ws (l : Str) : Str := l.dropWhile py_space

/-- Greedy `x?` under `re.IGNORECASE`: consume one leading `x`/`X` if present.
This is exact here because no continuation of either `_basic_parse` pattern
can start with an `x`, so the regex never needs to backtrack over it. -/
def opt_x (l : Str) : Str :=
  match l with
  | c :: tl => if Char.toLower c = 'x' then tl else l
  | [] => l

/-- Tail of pattern 1 after the digit group: `\s*x?\s*(CODE)`. -/
def pat1_rest (l : Str) : Option (Str × Str) :=
  match_alt_ci code_lits (drop_ws (opt_x (drop_ws l)))

/-- Greedy backtracking of the `\d+` group of pattern 1: try the digit
prefix of length `k`, then `k - 1`, … down to `1`.  Backtracking is
observable: on `"12L-BBQ"` the two-digit prefix fails but the one-digit
prefix leaves `2L-BBQ` for the code group. -/
def pat1_try (digits after : Str) : Nat → Option (Str × Str × Str)
  | 0 => none
  | Nat.succ k =>
    match pat1_rest (digits.drop (k + 1) ++ after) with
    | some (code, rest) => some (digits.take (k + 1), code, rest)
    | none => pat1_try digits after k

/-- Single-position matcher for pattern 1,
`(\d+)\s*x?\s*(P-CHZ|P-SC|P-BBQ|P-OG|2L-CHZ|2L-SC|2L-BBQ|2L-OG)` with
`re.IGNORECASE`.  Returns the two captured groups and the text after the
match. -/
def match_pat1 (l : Str) : Option ((Str × Str) × Str) :=
  let digits := l.takeWhile Char.isDigit
  if digits.isEmpty then none
  else
    match pat1_try digits (l.drop digits.length) digits.length with
    | some (d, code, rest) => some ((d, code), rest)
    | none => none

/-- Single-position matcher for pattern 2, `(CODE)\s*x?\s*(\d+)` with
`re.IGNORECASE`. -/
def match_pat2 (l : Str) : Option ((Str × Str) × Str) :=
  match match_alt_ci code_lits l with
  | none => none
  | some (code, r) =>
    let r₃ := drop_ws (opt_x (drop_ws r))
    let digits := r₃.takeWhile Char.isDigit
    if digits.isEmpty then none
    else some ((code, digits), r₃.drop digits.length)

/-- Flavor-word literals of pattern 3, in alternation order. -/
def flavor_lits : List Str :=
  ["cheese".toList, "sour cream".toList, "bbq".toList, "original".toList]

/-- Lazy `.*?(\d+)` without `re.DOTALL`: walk forward over non-newline
characters to the first digit run; fail on a newline or at end of text. -/
def seek_digits : Str → Option (Str × Str)
  | [] => none
  | c :: tl =>
    if c.isDigit then some ((c :: tl).takeWhile Char.isDigit, (c :: tl).dropWhile Char.isDigit)
    else if c = '\n' then none
    else seek_digits tl

/-- Single-position matcher for pattern 3,
`(cheese|sour cream|bbq|original).*?(\d+)` with `re.IGNORECASE`. -/
def match_pat3 (l : Str) : Option ((Str × Str) × Str) :=
  match match_alt_ci flavor_lits l with
  | none => none
  | some (kw, r) =>
    match seek_digits r with
    | some (ds, rest) => some ((kw, ds), rest)
    | none => none

/-- Generic `re.findall` scan: try the matcher at each position from the
left; on success record the captured groups and resume after the match
(non-overlapping), on failure advance one character.  Every pattern here
matches at least one character, so `length + 1` units of fuel always
suffice. -/
def scan_all (m : Str → Option ((Str × Str) × Str)) : Nat → Str → List (Str × Str)
  | 0, _ => []
  | _, [] => []
  | Nat.succ fuel, c :: tl =>
    match m (c :: tl) with
    | some (cap, rest) => cap :: scan_all m fuel rest
    | none => scan_all m fuel tl

/-- Python `re.findall(pattern1, message, re.IGNORECASE)`. -/
def findall1 (l : Str) : List (Str × Str) := scan_all match_pat1 (l.length + 1) l

/-- Python `re.findall(pattern2, message, re.IGNORECASE)`. -/
def findall2 (l : Str) : List (Str × Str) := scan_all match_pat2 (l.length + 1) l

/-- Python `re.findall(pattern3, message, re.IGNORECASE)`. -/
def findall3 (l : Str) : List (Str × Str) := scan_all match_pat3 (l.length + 1) l

/-- Body of the match loop of `_basic_parse`: decide which captured group
is the quantity (`match[0].isdigit()` / `match[1].isdigit()`), upper-case
the other group as the product code, and keep the item only when the code
is a key of `PRODUCTS`.  There is no positivity check on the quantity. -/
def convert_match (m : Str × Str) : Option OrderItem :=
  if is_digit_str m.1 then
    (lookup_product (upper_str m.2)).map fun p => ⟨p, (nat_of_digits m.1 : Int)⟩
  else if is_digit_str m.2 then
    (lookup_product (upper_str m.1)).map fun p => ⟨p, (nat_of_digits m.2 : Int)⟩
  else none

/-- Name-char class `[A-Za-z\s]` of the customer-name patterns. -/
def is_name_char (c : Char) : Bool :=
  (('A' ≤ c && c ≤ 'Z') || ('a' ≤ c && c ≤ 'z')) || py_space c

/-- ASCII letter test `[A-Za-z]`. -/
def is_ascii_alpha (c : Char) : Bool :=
  ('A' ≤ c && c ≤ 'Z') || ('a' ≤ c && c ≤ 'z')

/-- Length of the maximal whitespace run at the head of the text. -/
def ws_run_len (l : Str) : Nat := (l.takeWhile py_space).length

/-- Capture group semantics of `\s{minWs,}([A-Za-z\s]+)` with a greedy
whitespace run before a greedy name-char group: after a maximal
whitespace run of length `w ≥ minWs`, if a letter follows the group
captures the maximal `[A-Za-z\s]` run from that letter; otherwise the
engine backtracks one whitespace character into the group (possible only
when `w ≥ minWs + 1`), capturing exactly that single whitespace
character. -/
def capture_alpha_space (minWs : Nat) (l : Str) : Option Str :=
  let w := ws_run_len l
  if w < minWs then none
  else
    let p := l.drop w
    if (p.head?.map is_ascii_alpha).getD false then
      some (p.takeWhile is_name_char)
    else if minWs + 1 ≤ w then
      match l.drop (w - 1) with
      | c :: _ => some [c]
      | [] => none
    else none

/-- Leftmost `re.search(r'from\s+([A-Za-z\s]+)', message, re.IGNORECASE)`,
returning the captured group. -/
def search_from : Nat → Str → Option Str
  | 0, _ => none
  | _, [] => none
  | Nat.succ fuel, c :: tl =>
    if starts_with_ci ("from".toList) (c :: tl) then
      match capture_alpha_space 1 ((c :: tl).drop 4) with
      | some cap => some cap
      | none => search_from fuel tl
    else search_from fuel tl

/-- Check `\s+ordered` (case-insensitive) at a position.  Since `ordered`
starts with a non-whitespace character, only the maximal whitespace run
can precede it. -/
def ws_then_ordered (l : Str) : Bool :=
  let w := ws_run_len l
  decide (1 ≤ w) && starts_with_ci ("ordered".toList) (l.drop w)

/-- Greedy choice of the capture length for `([A-Za-z\s]+)\s+ordered`:
try the longest name-char run first and shrink until `\s+ordered`
follows. -/
def best_cap_len (l : Str) : Nat → Option Nat
  | 0 => none
  | Nat.succ k =>
    if ws_then_ordered (l.drop (k + 1)) then some (k + 1) else best_cap_len l k

/-- Single-position matcher for `([A-Za-z\s]+)\s+ordered` (the match must
begin with the capture group at this position). -/
def match_ordered_at (l : Str) : Option Str :=
  let m := (l.takeWhile is_name_char).length
  if m = 0 then none
  else
    match best_cap_len l m with
    | some c => some (l.take c)
    | none => none

/-- Leftmost `re.search(r'([A-Za-z\s]+)\s+ordered', message, re.IGNORECASE)`. -/
def search_ordered : Nat → Str → Option Str
  | 0, _ => none
  | _, [] => none
  | Nat.succ fuel, c :: tl =>
    match match_ordered_at (c :: tl) with
    | some cap => some cap
    | none => search_ordered fuel tl

/-- Leftmost `re.search(r'customer:\s*([A-Za-z\s]+)', message, re.IGNORECASE)`. -/
def search_customer : Nat → Str → Option Str
  | 0, _ => none
  | _, [] => none
  | Nat.succ fuel, c :: tl =>
    if starts_with_ci ("customer:".toList) (c :: tl) then
      match capture_alpha_space 0 ((c :: tl).drop 9) with
      | some cap => some cap
      | none => search_customer fuel tl
    else search_customer fuel tl

/-- Customer-name extraction of `_basic_parse`: the three patterns are
tried in order and the first pattern with a match anywhere wins; the
captured group is stripped. -/
def extract_name (msg : Str) : Option Str :=
  match search_from (msg.length + 1) msg with
  | some cap => some (py_strip cap)
  | none =>
    match search_ordered (msg.length + 1) msg with
    | some cap => some (py_strip cap)
    | none =>
      match search_customer (msg.length + 1) msg with
      | some cap => some (py_strip cap)
      | none => none

/-- Keyword groups of `OrderParser._detect_payment_method`, in the order
of its `if`/`elif` chain. -/
def gcash_kws : List Str := ["gcash".toList, "g-cash".toList, "g cash".toList]

def bpi_kws : List Str := ["bpi".toList]

def maya_kws : List Str := ["maya".toList, "paymaya".toList, "pay maya".toList]

def cash_kws : List Str :=
  ["cash".toList, "cod".toList, "cash on delivery".toList, "bayad cash".toList]

def bdo_kws : List Str := ["bdo".toList]

def others_kws : List Str := ["transfer".toList, "bank".toList, "online".toList]

/-- `OrderParser._detect_payment_method`: first-match-wins scan of the
lowercased message against the ordered keyword groups. -/
def detect_payment_method (message : Str) : Option Str :=
  let m := lower_str message
  if any_kw gcash_kws m then some ("Gcash".toList)
  else if any_kw bpi_kws m then some ("BPI".toList)
  else if any_kw maya_kws m then some ("Maya".toList)
  else if any_kw cash_kws m then some ("Cash".toList)
  else if any_kw bdo_kws m then some ("BDO".toList)
  else if any_kw others_kws m then some ("Others".toList)
  else none

/-- Quezon City keyword family of `_detect_location_and_seller`
(the source file stores the Paranaque diacritic variants in mojibake;
the literals below reproduce the file's characters). -/
def qc_kws : List Str :=
  ["quezon city".toList, "qc".toList, "sa qc".toList, "galing qc".toList,
   "dito sa quezon city".toList, "taga qc".toList, "qc area".toList]

def paranaque_kws : List Str :=
  ["paranaque".toList, "parana√±aque".toList, "para√±aque".toList,
   "sa paranaque".toList, "galing paranaque".toList, "dito sa paranaque".toList,
   "taga paranaque".toList, "paranaque area".toList]

/-- `OrderParser._detect_location_and_seller`: returns
`(customer_location, auto_sold_by)`. -/
def detect_location_and_seller (message : Str) : Option Str × Option Str :=
  let m := lower_str message
  if any_kw qc_kws m then (some ("Quezon City".toList), some ("Ferdie".toList))
  else if any_kw paranaque_kws m then (some ("Paranaque".toList), some ("Nina".toList))
  else (none, none)

/-- `OrderParser._basic_parse`: the deterministic fallback parser.  The
three regex patterns are scanned in order, each match is converted by
`convert_match`, and the per-pattern item lists are concatenated in
pattern order (this is the loop `for pattern in patterns: for match in
re.findall(...)`). -/
def basic_parse (message : Str) : ParsedOrder :=
  let items :=
    ((findall1 message).filterMap convert_match)
      ++ ((findall2 message).filterMap convert_match)
      ++ ((findall3 message).filterMap convert_match)
  let customer_name := extract_name message
  let total := items.foldl (fun acc it => acc + it.quantity * it.product.price) 0
  let payment_method := detect_payment_method message
  let ls := detect_location_and_seller message
  { customer_name := customer_name, items := items, total_amount := total,
    raw_message := message, payment_method := payment_method,
    customer_location := ls.1, auto_sold_by := ls.2 }

/-!
Oracle path (`parse_order_with_claude`, `_extract_and_validate_response`,
`_create_order_from_json`).  The external pieces are modelled at their
interfaces: the API call outcome is an `OracleOutcome`, and
`json.loads` (a library function, not repository code) is a parameter
`jl : Str → Option OracleData` that yields `some` exactly when the
extracted text parses to a truthy JSON object of the reply shape the
prompt mandates (the code treats a falsy parse — `None` result, `{}` —
the same as a parse failure, and any parse whose shape breaks
`_create_order_from_json` ends in the `except` branch, i.e. the basic
parse, just like a failure).  `float` fields (`confidence`) are metadata
attached outside the dataclass and are not modelled.
-/

/-- One element of the decoded `items` list; `none` fields model missing
keys, for which `_create_order_from_json` uses `.get` defaults `''` and
`0`. -/
structure OracleItem where
  product_code : Option Str
  quantity : Option Int
deriving DecidableEq, Repr

/-- Decoded JSON object of an oracle reply.  `items = none` models a
parsed object that lacks the `items` key. -/
structure OracleData where
  customer_name : Option Str
  payment_method : Option Str
  customer_location : Option Str
  items : Option (List OracleItem)
deriving DecidableEq, Repr

/-- `OrderParser._create_order_from_json`: items with an unknown
(upper-cased) product code or a non-positive quantity are silently
dropped; the seller is derived from `customer_location` by the fixed
two-entry table. -/
def create_order_from_json (data : OracleData) (raw_message : Str) : ParsedOrder :=
  let items := (data.items.getD []).filterMap fun item =>
    let product_code := upper_str ((item.product_code).getD [])
    let quantity := (item.quantity).getD 0
    match lookup_product product_code with
    | some p => if 0 < quantity then some (⟨p, quantity⟩ : OrderItem) else none
    | none => none
  let total := items.foldl (fun acc it => acc + it.quantity * it.product.price) 0
  let location := data.customer_location
  let auto_sold_by :=
    if location = some ("Quezon City".toList) then some ("Ferdie".toList)
    else if location = some ("Paranaque".toList) then some ("Nina".toList)
    else none
  { customer_name := data.customer_name, items := items, total_amount := total,
    raw_message := raw_message, payment_method := data.payment_method,
    customer_location := location, auto_sold_by := auto_sold_by }

/-- Decode strategy 1, `re.search(r'\{.*\}', text, re.DOTALL)`: the match
runs from the first opening brace to the last closing brace (greedy `.*`
under DOTALL); it exists iff some closing brace lies strictly after the
first opening brace. -/
def strat1_text (r : Str) : Option Str :=
  match r.findIdx? (fun c => c = '{') with
  | none => none
  | some i =>
    match r.reverse.findIdx? (fun c => c = '}') with
    | none => none
    | some jr =>
      let j := r.length - 1 - jr
      if i < j then some ((r.drop i).take (j - i + 1)) else none

/-- Trailing part `\s*` followed by a literal code fence. -/
def fence_close (l : Str) : Bool := starts_with_str ("```".toList) (l.dropWhile py_space)

/-- Lazy `.*?\}` under DOTALL followed by `\s*` and a closing fence:
returns the length (including the closing brace) up to the first closing
brace that is followed by whitespace and a fence. -/
def lazy_brace : Nat → Str → Option Nat
  | 0, _ => none
  | Nat.succ fuel, l =>
    match l with
    | [] => none
    | c :: tl =>
      if c = '}' && fence_close tl then some 1
      else
        match lazy_brace fuel tl with
        | some n => some (n + 1)
        | none => none

/-- Single-position matcher for decode strategy 2,
`re.search(r'```json\s*(\{.*?\})\s*```', text, re.DOTALL)`, returning
the captured braced text. -/
def strat2_at (l : Str) : Option Str :=
  if starts_with_str ("```json".toList) l then
    match (l.drop 7).dropWhile py_space with
    | '{' :: tl =>
      match lazy_brace (tl.length + 1) tl with
      | some n => some ('{' :: tl.take n)
      | none => none
    | _ => none
  else none

/-- Leftmost scan for decode strategy 2. -/
def strat2_scan : Nat → Str → Option Str
  | 0, _ => none
  | _, [] => none
  | Nat.succ fuel, c :: tl =>
    match strat2_at (c :: tl) with
    | some t => some t
    | none => strat2_scan fuel tl

/-- Decode strategy 2: fenced JSON block. -/
def strat2_text (r : Str) : Option Str := strat2_scan (r.length + 1) r

/-- `OrderParser._extract_and_validate_response`: the three decode
strategies are tried in order with first-success-wins (`if not
json_data` guards); if a truthy object with an `items` key was obtained
the order is decoded from it, otherwise the basic parse of the original
message is returned. -/
def extract_and_validate_response (jl : Str → Option OracleData)
    (response_text original_message : Str) : ParsedOrder :=
  let json1 : Option OracleData :=
    match strat1_text response_text with
    | some t => jl t
    | none => none
  let json2 : Option OracleData :=
    match json1 with
    | some d => some d
    | none =>
      match strat2_text response_text with
      | some t => jl t
      | none => none
  let json3 : Option OracleData :=
    match json2 with
    | some d => some d
    | none => jl response_text
  match json3 with
  | some d => if (d.items).isSome then create_order_from_json d original_message
              else basic_parse original_message
  | none => basic_parse original_message

/-- Outcome of the external API interaction in `parse_order_with_claude`:
no configured client, an exception from the call (any reason), or a
reply text. -/
inductive OracleOutcome where
  | noClient : OracleOutcome
  | apiError : OracleOutcome
  | success : Str → OracleOutcome
deriving DecidableEq

/-- `OrderParser.parse_order_with_claude`: without a client the basic
parse is returned directly; an API exception is caught and also falls
back to the basic parse; a reply goes through
`_extract_and_validate_response`. -/
def parse_order_with_claude (jl : Str → Option OracleData)
    (outcome : OracleOutcome) (message : Str) : ParsedOrder :=
  match outcome with
  | .noClient => basic_parse message
  | .apiError => basic_parse message
  | .success reply => extract_and_validate_response jl reply message

/-!
Ledger reconciler (`GoogleSheetsIntegration.find_next_available_row`,
`GoogleSheetsIntegration.update_order_simple`).  The worksheet is a
total function from 1-based (row, column) coordinates to cell values;
`worksheet.get("D1:W2000")` is modelled as the rectangular 2000 × 20
grid of those strings (gspread trims trailing blank cells, which the
length guards of the row check make unobservable: a missing trailing
cell and an empty string are both unoccupied).
-/

/-- Indices of the product columns N,O,P,Q,T,U,V,W inside the range
`D1:W2000` (D is index 0). -/
def product_column_indices : List Nat := [10, 11, 12, 13, 16, 17, 18, 19]

/-- Row-occupancy check of `find_next_available_row`: customer cell
(range index 0) truthy with non-blank strip, OR some product cell
present, truthy, non-blank and not `'0'` after strip. -/
def row_has_data (row_data : List Str) : Bool :=
  let has_customer_data :=
    match row_data with
    | c₀ :: _ => !c₀.isEmpty && !(py_strip c₀).isEmpty
    | [] => false
  let has_product_data := product_column_indices.any fun i =>
    match row_data.get? i with
    | some c => !c.isEmpty && !(py_strip c).isEmpty && !(py_strip c = "0".toList)
    | none => false
  has_customer_data || has_product_data

/-- The scan loop of `find_next_available_row`: walk the fetched rows
with their 0-based index, skip the header row (1-based number 1), and
remember the highest 1-based row number that has data, starting from 1. -/
def last_row_aux : Nat → List (List Str) → Nat → Nat
  | _, [], last => last
  | row_index, row_data :: rest, last =>
    let actual_row_number := row_index + 1
    if actual_row_number = 1 then last_row_aux (row_index + 1) rest last
    else if row_has_data row_data then last_row_aux (row_index + 1) rest actual_row_number
    else last_row_aux (row_index + 1) rest last

/-- Result of the `worksheet.get` fetch: the grid, or a raised exception. -/
inductive FetchResult where
  | ok : List (List Str) → FetchResult
  | err : FetchResult

/-- `GoogleSheetsIntegration.find_next_available_row`: one past the last
row with data on a successful fetch, and the fixed fallback row 526 when
the scan raised. -/
def find_next_available_row : FetchResult → Nat
  | .err => 526
  | .ok all_data => last_row_aux 0 all_data 1 + 1

/-- The fixed range `D1:W2000` fetched from a full worksheet `ws`
(1-based row and column numbers; column D is 4). -/
def fetch_d1_w2000 (ws : Nat → Nat → Str) : List (List Str) :=
  (List.range 2000).map fun i => (List.range 20).map fun j => ws (i + 1) (j + 4)

/-- `find_next_available_row` run against a full worksheet. -/
def find_next_available_row_ws (ws : Nat → Nat → Str) : Nat :=
  find_next_available_row (.ok (fetch_d1_w2000 ws))

/-- Cell values written by `update_order_simple`: strings or integers. -/
inductive CellVal where
  | vStr : Str → CellVal
  | vInt : Int → CellVal
deriving DecidableEq, Repr

/-- Worksheet state for the write path: 1-based (row, column) to value. -/
def Sheet := Nat → Nat → CellVal

/-- Python truthiness of a value about to be written (`if value:`). -/
def cell_truthy : CellVal → Bool
  | .vStr s => !s.isEmpty
  | .vInt n => !(n = 0)

/-- Python `a or "Unknown"` on an optional string. -/
def py_or_str (o : Option Str) (d : Str) : Str :=
  match o with
  | some s => if s.isEmpty then d else s
  | none => d

/-- Python truthiness of an optional string (`if parsed_order.x:`). -/
def py_truthy (o : Option Str) : Bool :=
  match o with
  | some s => !s.isEmpty
  | none => false

/-- Insertion-ordered dict assignment `updates[k] = v`: an existing key
keeps its position and gets the new value, a new key is appended. -/
def dict_insert (k : Char) (v : CellVal) : List (Char × CellVal) → List (Char × CellVal)
  | [] => [(k, v)]
  | (k₀, v₀) :: tl => if k = k₀ then (k, v) :: tl else (k₀, v₀) :: dict_insert k v tl

/-- The product-code to column-letter table of `update_order_simple`. -/
def col_for_code (code : Str) : Option Char :=
  if code = "P-CHZ".toList then some 'N'
  else if code = "P-SC".toList then some 'O'
  else if code = "P-BBQ".toList then some 'P'
  else if code = "P-OG".toList then some 'Q'
  else if code = "2L-CHZ".toList then some 'T'
  else if code = "2L-SC".toList then some 'U'
  else if code = "2L-BBQ".toList then some 'V'
  else if code = "2L-OG".toList then some 'W'
  else none

/-- The fixed (non-product) entries of the `updates` dict built by
`update_order_simple`, in insertion order: date (C), customer (D),
seller (E, only when truthy), payment status (H), payment method (G,
only when truthy), note (J), order type (K). -/
def base_updates (order : ParsedOrder) (today : Str) : List (Char × CellVal) :=
  let u := dict_insert 'C' (.vStr today) []
  let u := dict_insert 'D' (.vStr (py_or_str order.customer_name ("Unknown".toList))) u
  let u := if py_truthy order.auto_sold_by then
             dict_insert 'E' (.vStr ((order.auto_sold_by).getD [])) u
           else u
  let u := dict_insert 'H' (.vStr ("Unpaid".toList)) u
  let u := if py_truthy order.payment_method then
             dict_insert 'G' (.vStr ((order.payment_method).getD [])) u
           else u
  let u := dict_insert 'J' (.vStr ("ü§ñ".toList)) u
  dict_insert 'K' (.vStr ("Reserved".toList)) u

/-- One step of the product loop of `update_order_simple`: a mapped code
assigns its quantity to its column (a repeated code overwrites its
earlier dict value in place). -/
def product_step (u : List (Char × CellVal)) (it : OrderItem) : List (Char × CellVal) :=
  match col_for_code it.product.code with
  | some c => dict_insert c (.vInt it.quantity) u
  | none => u

/-- The full `updates` dict built by `update_order_simple`, in insertion
order. -/
def build_updates (order : ParsedOrder) (today : Str) : List (Char × CellVal) :=
  order.items.foldl product_step (base_updates order today)

/-- Column letter to 1-based column number (`ord(letter) - ord('A') + 1`). -/
def col_num (c : Char) : Nat := c.toNat - 'A'.toNat + 1

/-- Write one cell (`worksheet.update_cell(row, col, value)`). -/
def set_cell (ws : Sheet) (r c : Nat) (v : CellVal) : Sheet :=
  fun r' c' => if r' = r && c' = c then v else ws r' c'

/-- `GoogleSheetsIntegration.update_order_simple`: iterate the updates
dict in insertion order and write each truthy value to its cell of the
target row, leaving every other cell alone. -/
def update_order_simple (order : ParsedOrder) (row_number : Nat) (today : Str)
    (ws : Sheet) : Sheet :=
  (build_updates order today).foldl
    (fun w kv => if cell_truthy kv.2 then set_cell w row_number (col_num kv.1) kv.2 else w)
    ws

/-!
Helper lemmas: characters, digit strings, scanner outputs.
-/

/-- Building a character from a scalar value below the surrogate range
and reading its code point back is the identity. -/
theorem char_toNat_ofNat_valid (n : Nat) (h : n < 55296) : (Char.ofNat n).toNat = n := by
  have hv : n.isValidChar := Or.inl h
  rw [Char.ofNat, dif_pos hv]
  simp [Char.ofNatAux, Char.toNat, UInt32.toNat]

/-- Lowering a digit character is the identity. -/
theorem digit_toLower (c : Char) (h : c.isDigit = true) : Char.toLower c = c := by
  simp [Char.isDigit, UInt32.le_def, BitVec.le_def] at h
  unfold Char.toLower
  rw [if_neg]
  simp [Char.toNat, UInt32.toNat]
  omega

/-- Only the dash itself upper-cases to a dash. -/
theorem toUpper_eq_dash (c : Char) (h : Char.toUpper c = '-') : c = '-' := by
  rw [Char.toUpper] at h
  by_cases hc : c.toNat ≥ 97 ∧ c.toNat ≤ 122
  · rw [if_pos hc] at h
    exfalso
    have h2 := congrArg Char.toNat h
    rw [char_toNat_ofNat_valid] at h2
    · have h45 : Char.toNat '-' = 45 := rfl
      rw [h45] at h2
      omega
    · omega
  · rwa [if_neg hc] at h

/-- Length of `filterMap` equals the length of the `filter` by success of
the same function. -/
theorem length_filterMap_eq_length_filter {α β : Type} (f : α → Option β) :
    ∀ l : List α, (l.filterMap f).length = (l.filter fun a => (f a).isSome).length := by
  intro l
  induction l with
  | nil => rfl
  | cons a tl ih => cases h : f a <;> simp [List.filterMap_cons, List.filter_cons, h, ih]

/-- The line-total fold of the source equals a sum over the mapped lines. -/
theorem foldl_line_total (l : List OrderItem) :
    ∀ a : Int, l.foldl (fun acc it => acc + it.quantity * it.product.price) a
      = a + (l.map fun it => it.quantity * it.product.price).sum := by
  induction l with
  | nil => intro a; simp
  | cons it tl ih => intro a; simp [ih, add_assoc]

/-- Every captured pair returned by the generic scanner comes from a
successful run of the matcher at some suffix of the text. -/
theorem mem_scan_all {m : Str → Option ((Str × Str) × Str)} :
    ∀ {fuel : Nat} {l : Str} {cap : Str × Str}, cap ∈ scan_all m fuel l →
      ∃ l₁ rest, m l₁ = some (cap, rest) := by
  intro fuel
  induction fuel with
  | zero => intro l cap h; simp [scan_all] at h
  | succ fuel ih =>
    intro l cap h
    cases l with
    | nil => simp [scan_all] at h
    | cons c tl =>
      rw [scan_all] at h
      cases hm : m (c :: tl) with
      | none =>
        rw [hm] at h
        exact ih h
      | some pr =>
        rw [hm] at h
        simp only [List.mem_cons] at h
        rcases h with h | h
        · exact ⟨c :: tl, pr.2, by rw [hm, h]⟩
        · exact ih h

/-- The digit group chosen by the backtracking loop of pattern 1 is a
nonempty prefix of the digit run. -/
theorem pat1_try_digits {digits after : Str} :
    ∀ {k : Nat} {d code rest : Str}, pat1_try digits after k = some (d, code, rest) →
      ∃ j, 0 < j ∧ d = digits.take j := by
  intro k
  induction k with
  | zero => intro d code rest h; simp [pat1_try] at h
  | succ k ih =>
    intro d code rest h
    rw [pat1_try] at h
    cases hr : pat1_rest (digits.drop (k + 1) ++ after) with
    | some pr =>
      rw [hr] at h
      simp at h
      exact ⟨k + 1, Nat.succ_pos k, h.1.symm⟩
    | none =>
      rw [hr] at h
      exact ih h

/-- A nonempty prefix of a digit run is a digit string. -/
theorem is_digit_str_take_takeWhile {l : Str} {j : Nat} (hj : 0 < j)
    (hne : l.takeWhile Char.isDigit ≠ []) :
    is_digit_str ((l.takeWhile Char.isDigit).take j) = true := by
  unfold is_digit_str
  rw [Bool.and_eq_true]
  constructor
  · have hne2 : (l.takeWhile Char.isDigit).take j ≠ [] := by
      rw [Ne, List.take_eq_nil_iff]
      rintro (h0 | h0)
      · omega
      · exact hne h0
    simpa [List.isEmpty_iff] using hne2
  · rw [List.all_eq_true]
    intro c hc
    exact List.mem_takeWhile_imp (List.mem_of_mem_take hc)

/-- The first capture of every pattern-1 match is a digit string. -/
theorem match_pat1_digit {l : Str} {cap : Str × Str} {rest : Str}
    (h : match_pat1 l = some (cap, rest)) : is_digit_str cap.1 = true := by
  simp only [match_pat1] at h
  split at h
  next => exact absurd h (by simp)
  next he =>
    split at h
    next d code r ht =>
      obtain ⟨j, hj, hd⟩ := pat1_try_digits ht
      have hcap : cap = (d, code) := by
        simp only [Option.some.injEq, Prod.mk.injEq] at h
        exact h.1.symm
      rw [hcap, hd]
      exact is_digit_str_take_takeWhile hj (by simpa [List.isEmpty_iff] using he)
    next => exact absurd h (by simp)

/-- The second capture of every pattern-2 match is a digit string. -/
theorem match_pat2_digit {l : Str} {cap : Str × Str} {rest : Str}
    (h : match_pat2 l = some (cap, rest)) : is_digit_str cap.2 = true := by
  simp only [match_pat2] at h
  split at h
  next => exact absurd h (by simp)
  next code r ha =>
    split at h
    next => exact absurd h (by simp)
    next he =>
      have hcap : cap = (code, (drop_ws (opt_x (drop_ws r))).takeWhile Char.isDigit) := by
        simp only [Option.some.injEq, Prod.mk.injEq] at h
        exact h.1.symm
      rw [hcap]
      have hne : (drop_ws (opt_x (drop_ws r))).takeWhile Char.isDigit ≠ [] := by
        simpa [List.isEmpty_iff] using he
      have := is_digit_str_take_takeWhile (l := drop_ws (opt_x (drop_ws r)))
        (j := ((drop_ws (opt_x (drop_ws r))).takeWhile Char.isDigit).length)
        (List.length_pos.mpr hne) hne
      simpa [List.take_length] using this

/-- A successful ordered alternation match picks one of the literals and
captures a case-variant of it from the text. -/
theorem match_alt_ci_spec : ∀ (lits : List Str) (l cap rest : Str),
    match_alt_ci lits l = some (cap, rest) →
      ∃ lit ∈ lits, starts_with_ci lit l = true ∧ cap = l.take lit.length := by
  intro lits
  induction lits with
  | nil => intro l cap rest h; simp [match_alt_ci] at h
  | cons lit tl ih =>
    intro l cap rest h
    by_cases hs : starts_with_ci lit l = true
    · rw [match_alt_ci, if_pos hs] at h
      simp at h
      exact ⟨lit, by simp, hs, h.1.symm⟩
    · rw [match_alt_ci, if_neg hs] at h
      obtain ⟨lit', hmem, hsw, hcap⟩ := ih l cap rest h
      exact ⟨lit', by simp [hmem], hsw, hcap⟩

/-- Characters consumed by a case-insensitive literal match lower to the
same characters as the literal. -/
theorem starts_with_ci_chars : ∀ (pat l : Str), starts_with_ci pat l = true →
    (l.take pat.length).length = pat.length ∧
    ∀ c ∈ l.take pat.length, ∃ k ∈ pat, Char.toLower c = Char.toLower k := by
  intro pat
  induction pat with
  | nil => intro l _; simp
  | cons p ps ih =>
    intro l h
    cases l with
    | nil => simp [starts_with_ci] at h
    | cons c cs =>
      rw [starts_with_ci, Bool.and_eq_true] at h
      obtain ⟨h1, h2⟩ := h
      obtain ⟨ihlen, ihmem⟩ := ih cs h2
      refine ⟨by simpa using ihlen, ?_⟩
      intro x hx
      rw [List.length_cons, List.take_succ_cons] at hx
      rcases List.mem_cons.mp hx with rfl | hx
      · exact ⟨p, List.mem_cons_self p ps, (decide_eq_true_eq.mp h1).symm⟩
      · obtain ⟨k, hk, he⟩ := ihmem x hx
        exact ⟨k, List.mem_cons_of_mem p hk, he⟩

/-- The digit run found by the lazy seek of pattern 3 is a digit string. -/
theorem seek_digits_spec : ∀ {l ds rest : Str}, seek_digits l = some (ds, rest) →
    is_digit_str ds = true := by
  intro l
  induction l with
  | nil => intro ds rest h; simp [seek_digits] at h
  | cons c tl ih =>
    intro ds rest h
    rw [seek_digits] at h
    by_cases hd : c.isDigit
    · rw [if_pos hd] at h
      simp at h
      rw [← h.1, List.takeWhile_cons_of_pos hd]
      unfold is_digit_str
      rw [Bool.and_eq_true]
      refine ⟨by simp, ?_⟩
      rw [List.all_eq_true]
      intro x hx
      rcases List.mem_cons.mp hx with rfl | hx
      · exact hd
      · exact List.mem_takeWhile_imp hx
    · rw [if_neg hd] at h
      by_cases hn : c = '\n'
      · rw [if_pos hn] at h; exact absurd h (by simp)
      · rw [if_neg hn] at h; exact ih h

/-- Character facts about the flavor keywords of pattern 3: no keyword
character lowers to a dash or to a digit. -/
theorem flavor_char_facts :
    ∀ kw ∈ flavor_lits, ∀ k ∈ kw,
      Char.toLower k ≠ '-' ∧ (Char.toLower k).isDigit = false := by decide

/-- Flavor keywords are nonempty. -/
theorem flavor_lits_ne_nil : ∀ kw ∈ flavor_lits, kw ≠ [] := by decide

/-- Every catalog key contains a dash. -/
theorem products_key_dash : ∀ kp ∈ PRODUCTS, '-' ∈ kp.1 := by decide

/-- Association lookup misses when the key differs from every stored key. -/
theorem alist_lookup_eq_none {k : Str} : ∀ {ps : List (Str × Product)},
    (∀ kp ∈ ps, k ≠ kp.1) → alist_lookup k ps = none := by
  intro ps
  induction ps with
  | nil => intro _; rfl
  | cons kp tl ih =>
    intro h
    rw [alist_lookup, if_neg (h kp (List.mem_cons_self kp tl))]
    exact ih fun kp' hm => h kp' (List.mem_cons_of_mem kp hm)

/-- Association lookup returns a stored value. -/
theorem alist_lookup_mem {k : Str} : ∀ {ps : List (Str × Product)} {p : Product},
    alist_lookup k ps = some p → p ∈ ps.map fun kp => kp.2 := by
  intro ps
  induction ps with
  | nil => intro p h; simp [alist_lookup] at h
  | cons kp tl ih =>
    intro p h
    rw [alist_lookup] at h
    by_cases he : k = kp.1
    · rw [if_pos he] at h
      have hp : kp.2 = p := by simpa using h
      rw [List.map_cons, ← hp]
      exact List.mem_cons_self _ _
    · rw [if_neg he] at h
      simp [ih h]

/-- Pattern-3 matches never survive `convert_match`: the captured flavor
word is not a digit string, and its upper-casing contains no dash, so it
is not a catalog key. -/
theorem convert_match_flavor_none {l : Str} {cap : Str × Str} {rest : Str}
    (h : match_pat3 l = some (cap, rest)) : convert_match cap = none := by
  simp only [match_pat3] at h
  split at h
  next => exact absurd h (by simp)
  next kw r ha =>
    split at h
    next ds rest' hsd =>
      simp only [Option.some.injEq, Prod.mk.injEq] at h
      obtain ⟨hcap, _⟩ := h
      have hcap : cap = (kw, ds) := hcap.symm
      obtain ⟨lit, hlit, hsw, hkw⟩ := match_alt_ci_spec flavor_lits l kw r ha
      obtain ⟨hlen, hmem⟩ := starts_with_ci_chars lit l hsw
      rw [hcap]
      -- every character of the captured keyword lowers like a keyword char
      have hchars : ∀ c ∈ kw, ∃ k ∈ lit, Char.toLower c = Char.toLower k := by
        rw [hkw]; exact hmem
      -- the capture is not a digit string
      have hnotdig : is_digit_str kw = false := by
        cases hk : kw with
        | nil =>
          rw [hk] at hkw
          have : lit.length = 0 := by
            rw [← hkw] at hlen; simpa using hlen.symm
          exact absurd (List.length_eq_zero.mp this) (flavor_lits_ne_nil lit hlit)
        | cons c₀ ctl =>
          unfold is_digit_str
          rw [Bool.and_eq_false_iff]
          right
          rw [List.all_eq_false]
          refine ⟨c₀, by simp [hk], ?_⟩
          intro hdig
          obtain ⟨k, hkmem, hlow⟩ := hchars c₀ (by simp [hk])
          have := digit_toLower c₀ hdig
          rw [this] at hlow
          have hfact := (flavor_char_facts lit hlit k hkmem).2
          rw [← hlow] at hfact
          rw [hdig] at hfact
          simp at hfact
      -- the upper-cased capture is not a catalog key
      have hlook : lookup_product (upper_str kw) = none := by
        apply alist_lookup_eq_none
        intro kp hkp heq
        have hdash : '-' ∈ upper_str kw := by
          rw [heq]; exact products_key_dash kp hkp
        obtain ⟨c, hc, hcu⟩ := List.mem_map.mp hdash
        have hcdash : c = '-' := toUpper_eq_dash c hcu
        obtain ⟨k, hkmem, hlow⟩ := hchars c hc
        rw [hcdash] at hlow
        have : Char.toLower '-' = '-' := by decide
        rw [this] at hlow
        exact (flavor_char_facts lit hlit k hkmem).1 hlow.symm
      have hds : is_digit_str ds = true := seek_digits_spec hsd
      simp [convert_match, hnotdig, hds, hlook]
    next => exact absurd h (by simp)

/-- The third `_basic_parse` pattern contributes no order lines: its
flavor-word captures are never catalog codes. -/
theorem findall3_items_nil (msg : Str) : (findall3 msg).filterMap convert_match = [] := by
  rw [List.filterMap_eq_nil_iff]
  intro cap hcap
  obtain ⟨l₁, rest, hm⟩ := mem_scan_all hcap
  exact convert_match_flavor_none hm

/-!
Claims C1, C3, C9: validation of order lines on both parse paths.
-/

/-- Recognized mentions of a message: the capture pairs detected by the
joint three-pattern scan whose conversion succeeds, i.e. that pair a
digit quantity with a code whose upper-casing is in the catalog. -/
def recognized_mentions (msg : Str) : List (Str × Str) :=
  (findall1 msg ++ findall2 msg ++ findall3 msg).filter fun m => (convert_match m).isSome

/-- Every item of a deterministic parse comes from a successful
`convert_match` on some detected capture pair. -/
theorem basic_parse_items_conv {msg : Str} {it : OrderItem}
    (h : it ∈ (basic_parse msg).items) :
    ∃ cap, convert_match cap = some it := by
  simp only [basic_parse] at h
  rcases List.mem_append.mp h with h | h
  · rcases List.mem_append.mp h with h | h
    · obtain ⟨cap, _, hc⟩ := List.mem_filterMap.mp h
      exact ⟨cap, hc⟩
    · obtain ⟨cap, _, hc⟩ := List.mem_filterMap.mp h
      exact ⟨cap, hc⟩
  · obtain ⟨cap, _, hc⟩ := List.mem_filterMap.mp h
    exact ⟨cap, hc⟩

/-- A converted line has a nonnegative (digit-run) quantity and a product
taken from the catalog. -/
theorem convert_match_some {cap : Str × Str} {it : OrderItem}
    (h : convert_match cap = some it) :
    0 ≤ it.quantity ∧ it.product ∈ PRODUCTS.map fun kp => kp.2 := by
  unfold convert_match at h
  split at h
  next =>
    cases hl : lookup_product (upper_str cap.2) with
    | none => rw [hl] at h; exact absurd h (by simp)
    | some p =>
      rw [hl] at h
      simp only [Option.map_some', Option.some.injEq] at h
      refine ⟨?_, ?_⟩
      · rw [← h]; exact Int.natCast_nonneg _
      · rw [← h]; exact alist_lookup_mem hl
  next =>
    split at h
    next =>
      cases hl : lookup_product (upper_str cap.1) with
      | none => rw [hl] at h; exact absurd h (by simp)
      | some p =>
        rw [hl] at h
        simp only [Option.map_some', Option.some.injEq] at h
        refine ⟨?_, ?_⟩
        · rw [← h]; exact Int.natCast_nonneg _
        · rw [← h]; exact alist_lookup_mem hl
    next => exact absurd h (by simp)

/-- Every item decoded from an oracle reply has positive quantity and a
catalog product (the `product_code in PRODUCTS and quantity > 0` guard). -/
theorem create_order_items_spec {data : OracleData} {raw : Str} {it : OrderItem}
    (h : it ∈ (create_order_from_json data raw).items) :
    0 < it.quantity ∧ it.product ∈ PRODUCTS.map fun kp => kp.2 := by
  simp only [create_order_from_json] at h
  obtain ⟨item, hmem, hconv⟩ := List.mem_filterMap.mp h
  split at hconv
  next p hl =>
    split at hconv
    next hq =>
      simp only [Option.some.injEq] at hconv
      refine ⟨?_, ?_⟩
      · rw [← hconv]; exact hq
      · rw [← hconv]; exact alist_lookup_mem hl
    next => exact absurd hconv (by simp)
  next => exact absurd hconv (by simp)

/-- Claim C3: for every text, the Deterministic Parser emits one line per
recognized mention and its total is the exact sum of quantity × unit
price over the lines; and on the scenario text `2 P-CHZ and 1 2L-BBQ`
the lines are (P-CHZ, 2), (2L-BBQ, 1) with subtotal 2×150 + 1×290 = 590. -/
theorem basic_parse_mentions_and_subtotal :
    (∀ msg : Str,
      (basic_parse msg).items.length = (recognized_mentions msg).length ∧
      (basic_parse msg).total_amount
        = ((basic_parse msg).items.map fun it => it.quantity * it.product.price).sum) ∧
    (basic_parse ("2 P-CHZ and 1 2L-BBQ".toList)).items
        = [⟨⟨"P-CHZ".toList, "Cheese".toList, "Pouch".toList, 150⟩, 2⟩,
           ⟨⟨"2L-BBQ".toList, "BBQ".toList, "Tub".toList, 290⟩, 1⟩] ∧
    (basic_parse ("2 P-CHZ and 1 2L-BBQ".toList)).total_amount = 2 * 150 + 1 * 290 := by
  refine ⟨fun msg => ⟨?_, ?_⟩, by decide, by decide⟩
  · simp only [basic_parse, recognized_mentions]
    rw [List.filter_append, List.filter_append]
    simp [length_filterMap_eq_length_filter]
  · simp only [basic_parse]
    rw [foldl_line_total]
    simp

/-- Claim C1 counterexample: the Deterministic Parser stores a zero
quantity: the text `0 P-CHZ` produces an order line with quantity 0, so
zero quantities are not dropped on that path. -/
theorem basic_parse_zero_quantity_stored :
    (basic_parse ("0 P-CHZ".toList)).items
      = [⟨⟨"P-CHZ".toList, "Cheese".toList, "Pouch".toList, 150⟩, 0⟩] ∧
    ∃ it ∈ (basic_parse ("0 P-CHZ".toList)).items, it.quantity ≤ 0 := by
  refine ⟨by decide, ?_⟩
  exact ⟨⟨⟨"P-CHZ".toList, "Cheese".toList, "Pouch".toList, 150⟩, 0⟩, by decide, by decide⟩

/-- Concrete decoded oracle reply used to exercise the decoding path:
a lower-cased known code with quantity 2, an unknown code, and a known
code with quantity 0. -/
def sample_oracle_data : OracleData :=
  { customer_name := some ("Ana".toList), payment_method := some ("Gcash".toList),
    customer_location := some ("Quezon City".toList),
    items := some [⟨some ("p-chz".toList), some 2⟩,
                   ⟨some ("X-ZZZ".toList), some 5⟩,
                   ⟨some ("2L-OG".toList), some 0⟩] }

/-- Claim C1 (amended): every order line decoded from an oracle reply has
quantity > 0 (zero and negative quantities are dropped there), while an
order line stored by the Deterministic Parser is only guaranteed a
quantity ≥ 0 — its digit-run regexes cannot match a negative quantity,
but a matched zero quantity is stored rather than dropped. -/
theorem order_line_quantity_bounds :
    (∀ (data : OracleData) (raw : Str) (it : OrderItem),
        it ∈ (create_order_from_json data raw).items → 0 < it.quantity) ∧
    (∀ (msg : Str) (it : OrderItem),
        it ∈ (basic_parse msg).items → 0 ≤ it.quantity) := by
  constructor
  · intro data raw it hit
    exact (create_order_items_spec hit).1
  · intro msg it hit
    obtain ⟨cap, hc⟩ := basic_parse_items_conv hit
    exact (convert_match_some hc).1

/-- Claim C1 witness: the bounds evaluated on the line (P-CHZ, 2) stored
by both paths on concrete inputs. -/
theorem order_line_quantity_bounds_checked :
    0 < (⟨⟨"P-CHZ".toList, "Cheese".toList, "Pouch".toList, 150⟩, 2⟩ : OrderItem).quantity ∧
    0 ≤ (⟨⟨"P-CHZ".toList, "Cheese".toList, "Pouch".toList, 150⟩, 2⟩ : OrderItem).quantity :=
  ⟨order_line_quantity_bounds.1 sample_oracle_data []
      ⟨⟨"P-CHZ".toList, "Cheese".toList, "Pouch".toList, 150⟩, 2⟩ (by decide),
   order_line_quantity_bounds.2 ("2 P-CHZ".toList)
      ⟨⟨"P-CHZ".toList, "Cheese".toList, "Pouch".toList, 150⟩, 2⟩ (by decide)⟩

/-- Claim C9 counterexample: a raw-text mention with a non-positive
quantity is not dropped: the text `0 2L-OG` stores a line with
quantity 0 instead of dropping the mention. -/
theorem basic_parse_keeps_nonpositive_mention :
    (basic_parse ("0 2L-OG".toList)).items
      = [⟨⟨"2L-OG".toList, "Original".toList, "Tub".toList, 290⟩, 0⟩] ∧
    ∃ it ∈ (basic_parse ("0 2L-OG".toList)).items, ¬ 0 < it.quantity := by
  refine ⟨by decide, ?_⟩
  exact ⟨⟨⟨"2L-OG".toList, "Original".toList, "Tub".toList, 290⟩, 0⟩, by decide, by decide⟩

/-- Claim C9 (amended): a mention with an unknown product code (after
upper-casing, not in the catalog) is silently dropped on both paths and
never raises — both parsers are total and every stored line carries a
catalog product; a non-positive quantity is dropped on the decoded-reply
path, while on the raw-text path a matched zero quantity is stored
(negative quantities cannot be matched); the text `X-ZZZ 5` yields a
parse with zero lines, not an error. -/
theorem mention_validation_behaviour :
    (∀ (data : OracleData) (raw : Str) (it : OrderItem),
        it ∈ (create_order_from_json data raw).items →
          it.product ∈ (PRODUCTS.map fun kp => kp.2) ∧ 0 < it.quantity) ∧
    (∀ (msg : Str) (it : OrderItem),
        it ∈ (basic_parse msg).items → it.product ∈ PRODUCTS.map fun kp => kp.2) ∧
    (basic_parse ("X-ZZZ 5".toList)).items = [] := by
  refine ⟨?_, ?_, by decide⟩
  · intro data raw it hit
    exact ⟨(create_order_items_spec hit).2, (create_order_items_spec hit).1⟩
  · intro msg it hit
    obtain ⟨cap, hc⟩ := basic_parse_items_conv hit
    exact (convert_match_some hc).2

/-- Claim C9 witness: the membership facts evaluated on concrete inputs
of both paths. -/
theorem mention_validation_behaviour_checked :
    ((⟨⟨"P-CHZ".toList, "Cheese".toList, "Pouch".toList, 150⟩, 2⟩ : OrderItem).product
        ∈ PRODUCTS.map fun kp => kp.2) ∧
    0 < (⟨⟨"P-CHZ".toList, "Cheese".toList, "Pouch".toList, 150⟩, 2⟩ : OrderItem).quantity := by
  refine ⟨mention_validation_behaviour.2.1 ("2 P-CHZ".toList)
    ⟨⟨"P-CHZ".toList, "Cheese".toList, "Pouch".toList, 150⟩, 2⟩ (by decide), ?_⟩
  exact (mention_validation_behaviour.1 sample_oracle_data []
    ⟨⟨"P-CHZ".toList, "Cheese".toList, "Pouch".toList, 150⟩, 2⟩ (by decide)).2

/-!
Claim C2: ordering of the produced lines.
-/

/-- Reverse pairing for case-insensitive literal matches: every literal
character has a consumed text character with the same lowering. -/
theorem starts_with_ci_chars_rev : ∀ (pat l : Str), starts_with_ci pat l = true →
    ∀ k ∈ pat, ∃ c ∈ l.take pat.length, Char.toLower c = Char.toLower k := by
  intro pat
  induction pat with
  | nil => intro l _ k hk; simp at hk
  | cons p ps ih =>
    intro l h k hk
    cases l with
    | nil => simp [starts_with_ci] at h
    | cons c cs =>
      rw [starts_with_ci, Bool.and_eq_true] at h
      obtain ⟨h1, h2⟩ := h
      rw [List.length_cons, List.take_succ_cons]
      rcases List.mem_cons.mp hk with rfl | hk
      · exact ⟨c, List.mem_cons_self c _, (decide_eq_true_eq.mp h1).symm⟩
      · obtain ⟨c', hc', he⟩ := ih cs h2 k hk
        exact ⟨c', List.mem_cons_of_mem c hc', he⟩

/-- Every product-code literal contains a dash. -/
theorem code_lits_dash : ∀ lit ∈ code_lits, '-' ∈ lit := by decide

/-- The code capture of a pattern-2 match is never a digit string: it
contains a (case-folded) dash. -/
theorem match_pat2_code_not_digit {l : Str} {cap : Str × Str} {rest : Str}
    (h : match_pat2 l = some (cap, rest)) : is_digit_str cap.1 = false := by
  simp only [match_pat2] at h
  split at h
  next => exact absurd h (by simp)
  next code r ha =>
    split at h
    next => exact absurd h (by simp)
    next he =>
      have hcap : cap.1 = code := by
        simp only [Option.some.injEq, Prod.mk.injEq] at h
        rw [← h.1]
      obtain ⟨lit, hlit, hsw, hcode⟩ := match_alt_ci_spec code_lits l code r ha
      obtain ⟨c, hc, hlow⟩ := starts_with_ci_chars_rev lit l hsw '-' (code_lits_dash lit hlit)
      have hld : Char.toLower '-' = '-' := by decide
      rw [hld] at hlow
      have hcnd : c.isDigit = false := by
        cases hdg : c.isDigit with
        | false => rfl
        | true =>
          rw [digit_toLower c hdg] at hlow
          rw [hlow] at hdg
          exact absurd hdg (by decide)
      unfold is_digit_str
      rw [Bool.and_eq_false_iff]
      right
      rw [List.all_eq_false]
      exact ⟨c, by rw [hcap, hcode]; exact hc, by simp [hcnd]⟩

/-- Claim C2 counterexample: the lines are grouped by pattern, not by
first appearance in the text.  On `P-CHZ x 2 and 3 2L-BBQ` the
code-then-quantity mention `P-CHZ x 2` precedes the quantity-then-code
mention `3 2L-BBQ`, yet its line comes second, because all matches of
the quantity-then-code pattern are emitted before any match of the
code-then-quantity pattern. -/
theorem basic_parse_pattern_order_cex :
    (basic_parse ("P-CHZ x 2 and 3 2L-BBQ".toList)).items
      = [⟨⟨"2L-BBQ".toList, "BBQ".toList, "Tub".toList, 290⟩, 3⟩,
         ⟨⟨"P-CHZ".toList, "Cheese".toList, "Pouch".toList, 150⟩, 2⟩] ∧
    ([⟨⟨"2L-BBQ".toList, "BBQ".toList, "Tub".toList, 290⟩, 3⟩,
      ⟨⟨"P-CHZ".toList, "Cheese".toList, "Pouch".toList, 150⟩, 2⟩] : List OrderItem)
      ≠ [⟨⟨"P-CHZ".toList, "Cheese".toList, "Pouch".toList, 150⟩, 2⟩,
         ⟨⟨"2L-BBQ".toList, "BBQ".toList, "Tub".toList, 290⟩, 3⟩] :=
  ⟨by decide, by decide⟩

/-- Claim C2 (amended): every match whose upper-cased code is in the
catalog becomes exactly one order line (in particular every match with
quantity ≥ 1 and a catalog code), but the resulting lines appear grouped
by pattern — all quantity-then-code matches first, then all
code-then-quantity matches, each group in text order — rather than in
order of first appearance across patterns; the flavor-word pattern
contributes no lines. -/
theorem basic_parse_lines_pattern_grouped (msg : Str) :
    (basic_parse msg).items
      = (findall1 msg).filterMap convert_match
          ++ (findall2 msg).filterMap convert_match ∧
    (findall3 msg).filterMap convert_match = [] ∧
    (∀ cap ∈ findall1 msg, ∀ p : Product,
        lookup_product (upper_str cap.2) = some p →
          convert_match cap = some ⟨p, (nat_of_digits cap.1 : Int)⟩) ∧
    (∀ cap ∈ findall2 msg, ∀ p : Product,
        lookup_product (upper_str cap.1) = some p →
          convert_match cap = some ⟨p, (nat_of_digits cap.2 : Int)⟩) := by
  refine ⟨?_, findall3_items_nil msg, ?_, ?_⟩
  · simp only [basic_parse]
    rw [findall3_items_nil msg, List.append_nil]
  · intro cap hcap p hp
    obtain ⟨l₁, rest, hm⟩ := mem_scan_all hcap
    have hd : is_digit_str cap.1 = true := match_pat1_digit hm
    simp [convert_match, hd, hp]
  · intro cap hcap p hp
    obtain ⟨l₁, rest, hm⟩ := mem_scan_all hcap
    have hd : is_digit_str cap.2 = true := match_pat2_digit hm
    have hnd : is_digit_str cap.1 = false := match_pat2_code_not_digit hm
    simp [convert_match, hd, hnd, hp]

/-- Claim C2 witness: the grouped-order equation and the one-line-per-
match rule evaluated on the counterexample text and its two matches. -/
theorem basic_parse_lines_pattern_grouped_checked :
    (basic_parse ("P-CHZ x 2 and 3 2L-BBQ".toList)).items
      = (findall1 ("P-CHZ x 2 and 3 2L-BBQ".toList)).filterMap convert_match
          ++ (findall2 ("P-CHZ x 2 and 3 2L-BBQ".toList)).filterMap convert_match ∧
    convert_match ("3".toList, "2L-BBQ".toList)
      = some ⟨⟨"2L-BBQ".toList, "BBQ".toList, "Tub".toList, 290⟩,
              (nat_of_digits ("3".toList) : Int)⟩ ∧
    convert_match ("P-CHZ".toList, "2".toList)
      = some ⟨⟨"P-CHZ".toList, "Cheese".toList, "Pouch".toList, 150⟩,
              (nat_of_digits ("2".toList) : Int)⟩ := by
  refine ⟨(basic_parse_lines_pattern_grouped _).1, ?_, ?_⟩
  · exact (basic_parse_lines_pattern_grouped ("P-CHZ x 2 and 3 2L-BBQ".toList)).2.2.1
      ("3".toList, "2L-BBQ".toList) (by decide) _ (by decide)
  · exact (basic_parse_lines_pattern_grouped ("P-CHZ x 2 and 3 2L-BBQ".toList)).2.2.2
      ("P-CHZ".toList, "2".toList) (by decide) _ (by decide)

/-!
Claim C4: the location-to-seller mapping of both parse paths.
-/

/-- Mapping table of the spec (section 4.3), written from its words:
Quezon City → Ferdie, Paranaque → Nina, anything else or absent →
absent. -/
def spec_seller_for : Option Str → Option Str
  | some l =>
    if l = "Quezon City".toList then some ("Ferdie".toList)
    else if l = "Paranaque".toList then some ("Nina".toList)
    else none
  | none => none

/-- The iff shape of the spec table. -/
theorem spec_seller_for_iff (o : Option Str) :
    (spec_seller_for o = some ("Ferdie".toList) ↔ o = some ("Quezon City".toList)) ∧
    (spec_seller_for o = some ("Nina".toList) ↔ o = some ("Paranaque".toList)) := by
  cases o with
  | none => simp [spec_seller_for]
  | some l =>
    by_cases hq : l = "Quezon City".toList
    · subst hq; decide
    · by_cases hp : l = "Paranaque".toList
      · subst hp; decide
      · simp only [spec_seller_for]
        rw [if_neg hq, if_neg hp]
        simp
        exact ⟨hq, hp⟩

/-- The seller produced by `_detect_location_and_seller` is the spec
mapping of the location it produces. -/
theorem detect_seller_spec (msg : Str) :
    (detect_location_and_seller msg).2
      = spec_seller_for (detect_location_and_seller msg).1 := by
  unfold detect_location_and_seller
  cases h1 : any_kw qc_kws (lower_str msg) with
  | true => simp [h1]; rfl
  | false =>
    cases h2 : any_kw paranaque_kws (lower_str msg) with
    | true => simp [h1, h2]; rfl
    | false => simp [h1, h2]; rfl

/-- Claim C4: on both parse paths the assigned seller is Ferdie iff the
customer location is Quezon City, Nina iff Paranaque, and absent for any
other or absent location; both paths compute the identical pure mapping
`spec_seller_for` of their location field. -/
theorem seller_assignment_mapping :
    (∀ msg : Str,
      (basic_parse msg).auto_sold_by
        = spec_seller_for (basic_parse msg).customer_location) ∧
    (∀ (data : OracleData) (raw : Str),
      (create_order_from_json data raw).auto_sold_by
        = spec_seller_for (create_order_from_json data raw).customer_location) ∧
    (∀ msg : Str,
      ((basic_parse msg).auto_sold_by = some ("Ferdie".toList)
          ↔ (basic_parse msg).customer_location = some ("Quezon City".toList)) ∧
      ((basic_parse msg).auto_sold_by = some ("Nina".toList)
          ↔ (basic_parse msg).customer_location = some ("Paranaque".toList))) ∧
    (∀ (data : OracleData) (raw : Str),
      ((create_order_from_json data raw).auto_sold_by = some ("Ferdie".toList)
          ↔ (create_order_from_json data raw).customer_location
              = some ("Quezon City".toList)) ∧
      ((create_order_from_json data raw).auto_sold_by = some ("Nina".toList)
          ↔ (create_order_from_json data raw).customer_location
              = some ("Paranaque".toList))) := by
  have hb : ∀ msg : Str,
      (basic_parse msg).auto_sold_by
        = spec_seller_for (basic_parse msg).customer_location := by
    intro msg
    have h1 : (basic_parse msg).customer_location = (detect_location_and_seller msg).1 := rfl
    have h2 : (basic_parse msg).auto_sold_by = (detect_location_and_seller msg).2 := rfl
    rw [h1, h2, detect_seller_spec]
  have hj : ∀ (data : OracleData) (raw : Str),
      (create_order_from_json data raw).auto_sold_by
        = spec_seller_for (create_order_from_json data raw).customer_location := by
    intro data raw
    have h1 : (create_order_from_json data raw).customer_location
        = data.customer_location := rfl
    have h2 : (create_order_from_json data raw).auto_sold_by
        = (if data.customer_location = some ("Quezon City".toList)
            then some ("Ferdie".toList)
           else if data.customer_location = some ("Paranaque".toList)
            then some ("Nina".toList) else none) := rfl
    rw [h1, h2]
    cases hl : data.customer_location with
    | none => simp [spec_seller_for]
    | some l =>
      by_cases hq : l = "Quezon City".toList
      · simp [spec_seller_for, hq]
      · by_cases hp : l = "Paranaque".toList
        · simp [spec_seller_for, hq, hp]
        · simp [spec_seller_for, hq, hp]
  refine ⟨hb, hj, ?_, ?_⟩
  · intro msg
    rw [hb msg]
    exact spec_seller_for_iff ((basic_parse msg).customer_location)
  · intro data raw
    rw [hj data raw]
    exact spec_seller_for_iff ((create_order_from_json data raw).customer_location)

/-!
Claim C8: payment-method extraction.
-/

/-- Boolean prefix test agrees with the prefix relation. -/
theorem starts_with_str_iff {p : Str} : ∀ {l : Str}, starts_with_str p l = true ↔ p <+: l := by
  induction p with
  | nil => intro l; simp [starts_with_str]
  | cons a ps ih =>
    intro l
    cases l with
    | nil => simp [starts_with_str]
    | cons c cs =>
      rw [starts_with_str, Bool.and_eq_true, List.cons_prefix_cons]
      constructor
      · rintro ⟨h1, h2⟩
        exact ⟨decide_eq_true_eq.mp h1, ih.mp h2⟩
      · rintro ⟨h1, h2⟩
        exact ⟨decide_eq_true_eq.mpr h1, ih.mpr h2⟩

/-- Python substring containment agrees with the infix relation. -/
theorem contains_sub_iff {n : Str} : ∀ {h : Str}, contains_sub n h = true ↔ n <:+: h := by
  intro h
  induction h with
  | nil =>
    rw [contains_sub, starts_with_str_iff]
    simp
  | cons c tl ih =>
    rw [contains_sub, Bool.or_eq_true, starts_with_str_iff, ih]
    exact (List.infix_cons_iff).symm

/-- A text containing `pay maya` contains `maya`. -/
theorem pay_maya_bridge (m : Str) (h : contains_sub ("pay maya".toList) m = true) :
    contains_sub ("maya".toList) m = true :=
  contains_sub_iff.mpr
    ((show ("maya".toList : Str) <:+: "pay maya".toList by decide).trans
      (contains_sub_iff.mp h))

/-- A text containing `bayad cash` contains `cash`. -/
theorem bayad_cash_bridge (m : Str) (h : contains_sub ("bayad cash".toList) m = true) :
    contains_sub ("cash".toList) m = true :=
  contains_sub_iff.mpr
    ((show ("cash".toList : Str) <:+: "bayad cash".toList by decide).trans
      (contains_sub_iff.mp h))

/-- Spec-side ordered keyword groups of payment extraction: the gcash
family, then bpi, maya/paymaya, cash/cod/"cash on delivery", bdo, and
transfer/bank/online. -/
def spec_payment_groups : List (List Str × Str) :=
  [(["gcash".toList, "g-cash".toList, "g cash".toList], "Gcash".toList),
   (["bpi".toList], "BPI".toList),
   (["maya".toList, "paymaya".toList], "Maya".toList),
   (["cash".toList, "cod".toList, "cash on delivery".toList], "Cash".toList),
   (["bdo".toList], "BDO".toList),
   (["transfer".toList, "bank".toList, "online".toList], "Others".toList)]

/-- First-match-wins scan of ordered keyword groups, as the spec words
it. -/
def first_group_scan : List (List Str × Str) → Str → Option Str
  | [], _ => none
  | (kws, res) :: rest, m => if any_kw kws m then some res else first_group_scan rest m

/-- Spec-side payment extraction. -/
def spec_payment_scan (msg : Str) : Option Str :=
  first_group_scan spec_payment_groups (lower_str msg)

/-- The third maya spelling of the source is redundant. -/
theorem maya_group_eq (m : Str) :
    any_kw maya_kws m = any_kw ["maya".toList, "paymaya".toList] m := by
  unfold any_kw maya_kws
  simp only [List.any_cons, List.any_nil, Bool.or_false]
  cases hpm : contains_sub ("pay maya".toList) m with
  | false => simp
  | true =>
    have hm := pay_maya_bridge m hpm
    rw [hm]
    simp

/-- The fourth cash spelling of the source is redundant. -/
theorem cash_group_eq (m : Str) :
    any_kw cash_kws m
      = any_kw ["cash".toList, "cod".toList, "cash on delivery".toList] m := by
  unfold any_kw cash_kws
  simp only [List.any_cons, List.any_nil, Bool.or_false]
  cases hbc : contains_sub ("bayad cash".toList) m with
  | false => simp
  | true =>
    have hm := bayad_cash_bridge m hbc
    rw [hm]
    simp

/-- Claim C8: payment extraction is the first-match-wins scan of the
lowercased text against the ordered keyword groups gcash family → Gcash,
bpi → BPI, maya/paymaya → Maya, cash/cod/"cash on delivery" → Cash,
bdo → BDO, transfer/bank/online → Others, and absent when no group
matches; the earliest matching group in this order decides. -/
theorem detect_payment_method_spec (msg : Str) :
    detect_payment_method msg = spec_payment_scan msg := by
  unfold detect_payment_method spec_payment_scan
  simp only [spec_payment_groups, first_group_scan, gcash_kws, bpi_kws, bdo_kws, others_kws]
  rw [maya_group_eq, cash_group_eq]

/-!
Claim C5: fall-back policy of the oracle interpretation path.
-/

/-- First-success decode of a reply: strategy 1 (brace-delimited object
anywhere in the reply), then strategy 2 (fenced JSON block), then
strategy 3 (the entire reply as JSON), each fed to the JSON reader. -/
def decode_reply (jl : Str → Option OracleData) (reply : Str) : Option OracleData :=
  match (strat1_text reply).bind jl with
  | some d => some d
  | none =>
    match (strat2_text reply).bind jl with
    | some d => some d
    | none => jl reply

/-- The response validator is the first-success decode followed by the
items-key check, with the deterministic parse as the fall-back. -/
theorem extract_eq_decode (jl : Str → Option OracleData) (reply msg : Str) :
    extract_and_validate_response jl reply msg
      = match decode_reply jl reply with
        | some d => if (d.items).isSome then create_order_from_json d msg
                    else basic_parse msg
        | none => basic_parse msg := by
  unfold extract_and_validate_response decode_reply
  cases h1 : strat1_text reply with
  | some t1 =>
    cases h2 : jl t1 with
    | some d => simp [h2]
    | none =>
      cases h3 : strat2_text reply with
      | some t2 =>
        cases h4 : jl t2 with
        | some d => simp [h2, h4]
        | none => simp [h2, h4]
      | none => simp [h2]
  | none =>
    cases h3 : strat2_text reply with
    | some t2 =>
      cases h4 : jl t2 with
      | some d => simp [h4]
      | none => simp [h4]
    | none => simp

/-- Claim C5: with no configured client, or a failed call, or a reply on
which all three decode strategies fail to produce a (truthy) JSON
object, or a decoded object without an `items` key, the interpretation
returns exactly the Deterministic Parser's result for the message and no
error escapes (all functions are total); otherwise it returns the order
decoded from the oracle reply. -/
theorem oracle_fallback_policy (jl : Str → Option OracleData) (msg reply : Str)
    (d : OracleData) :
    parse_order_with_claude jl .noClient msg = basic_parse msg ∧
    parse_order_with_claude jl .apiError msg = basic_parse msg ∧
    (decode_reply jl reply = none →
      parse_order_with_claude jl (.success reply) msg = basic_parse msg) ∧
    (decode_reply jl reply = some d → d.items = none →
      parse_order_with_claude jl (.success reply) msg = basic_parse msg) ∧
    (decode_reply jl reply = some d → (d.items).isSome = true →
      parse_order_with_claude jl (.success reply) msg = create_order_from_json d msg) := by
  refine ⟨rfl, rfl, ?_, ?_, ?_⟩
  · intro h
    show extract_and_validate_response jl reply msg = basic_parse msg
    rw [extract_eq_decode, h]
  · intro h hi
    show extract_and_validate_response jl reply msg = basic_parse msg
    rw [extract_eq_decode, h]
    simp [hi]
  · intro h hi
    show extract_and_validate_response jl reply msg = create_order_from_json d msg
    rw [extract_eq_decode, h]
    simp [hi]

/-- A concrete JSON reader for the witness: only the text `{a}` parses,
to the sample decoded object. -/
def jl_sample : Str → Option OracleData := fun t =>
  if t = "{a}".toList then some sample_oracle_data else none

/-- Claim C5 witness: the policy evaluated on a missing client, an
undecodable reply, and a reply whose first strategy succeeds. -/
theorem oracle_fallback_policy_checked :
    parse_order_with_claude jl_sample .noClient ("2 P-CHZ".toList)
      = basic_parse ("2 P-CHZ".toList) ∧
    parse_order_with_claude (fun _ => none) (.success ("no json".toList)) ("2 P-CHZ".toList)
      = basic_parse ("2 P-CHZ".toList) ∧
    parse_order_with_claude jl_sample (.success ("x {a} y".toList)) ("2 P-CHZ".toList)
      = create_order_from_json sample_oracle_data ("2 P-CHZ".toList) := by
  refine ⟨(oracle_fallback_policy jl_sample ("2 P-CHZ".toList) ("no json".toList)
    sample_oracle_data).1, ?_, ?_⟩
  · exact (oracle_fallback_policy (fun _ => none) ("2 P-CHZ".toList) ("no json".toList)
      sample_oracle_data).2.2.1 (by decide)
  · exact (oracle_fallback_policy jl_sample ("2 P-CHZ".toList) ("x {a} y".toList)
      sample_oracle_data).2.2.2.2 (by decide) (by decide)

/-!
Claims C6, C10: the next-open-row scan of the ledger.
-/

/-- Spec-side occupancy of a fetched row: the name cell (range index 0)
is non-blank after stripping, or some product cell is present, non-blank
after stripping, and not `0` after stripping. -/
def spec_occupied (row_data : List Str) : Bool :=
  (match row_data.get? 0 with
   | some c => !(py_strip c).isEmpty
   | none => false)
  || product_column_indices.any fun i =>
      match row_data.get? i with
      | some c => !(py_strip c).isEmpty && !(py_strip c = "0".toList)
      | none => false

/-- Stripping the empty string gives the empty string. -/
theorem py_strip_nil : py_strip [] = [] := rfl

/-- The truthiness conjunct of the name-cell check is redundant. -/
theorem name_check_eq (c : Str) :
    (!c.isEmpty && !(py_strip c).isEmpty) = !(py_strip c).isEmpty := by
  cases c with
  | nil => simp [py_strip_nil]
  | cons a tl => simp

/-- The truthiness conjunct of a product-cell check is redundant. -/
theorem cell_check_eq (c : Str) :
    (!c.isEmpty && !(py_strip c).isEmpty && !(py_strip c = "0".toList))
      = (!(py_strip c).isEmpty && !(py_strip c = "0".toList)) := by
  cases c with
  | nil => simp [py_strip_nil]
  | cons a tl => simp

/-- Per-index form of `cell_check_eq` through the bounds-guarded read. -/
theorem cell_at_eq (row : List Str) (i : Nat) :
    (match row.get? i with
     | some c => !c.isEmpty && !(py_strip c).isEmpty && !(py_strip c = "0".toList)
     | none => false)
      = (match row.get? i with
         | some c => !(py_strip c).isEmpty && !(py_strip c = "0".toList)
         | none => false) := by
  cases row.get? i with
  | none => rfl
  | some c => exact cell_check_eq c

/-- Pointwise-equal predicates give equal `any`. -/
theorem any_eq_of {α : Type} {f g : α → Bool} :
    ∀ {l : List α}, (∀ a ∈ l, f a = g a) → l.any f = l.any g := by
  intro l
  induction l with
  | nil => intro _; rfl
  | cons a tl ih =>
    intro h
    rw [List.any_cons, List.any_cons, h a (List.mem_cons_self a tl),
      ih fun a' ha' => h a' (List.mem_cons_of_mem a ha')]

/-- Claim C6 occupancy: the code's row check is the spec occupancy. -/
theorem row_has_data_spec (row_data : List Str) :
    row_has_data row_data = spec_occupied row_data := by
  cases row_data with
  | nil => rfl
  | cons c tl =>
    show (!c.isEmpty && !(py_strip c).isEmpty
          || product_column_indices.any fun i =>
              match (c :: tl : List Str).get? i with
              | some c' => !c'.isEmpty && !(py_strip c').isEmpty
                    && !(py_strip c' = "0".toList)
              | none => false)
        = (!(py_strip c).isEmpty
          || product_column_indices.any fun i =>
              match (c :: tl : List Str).get? i with
              | some c' => !(py_strip c').isEmpty && !(py_strip c' = "0".toList)
              | none => false)
    rw [name_check_eq]
    congr 1
    exact any_eq_of fun i _ => cell_at_eq (c :: tl) i

/-- The 1-based numbers of occupied non-header rows, walking the fetched
grid from 0-based index `idx`. -/
def occupied_row_numbers : Nat → List (List Str) → List Nat
  | _, [] => []
  | row_index, row_data :: rest =>
    (if row_index + 1 = 1 then [] else
     if spec_occupied row_data then [row_index + 1] else [])
      ++ occupied_row_numbers (row_index + 1) rest

/-- Membership description of `occupied_row_numbers`. -/
theorem mem_occupied_row_numbers : ∀ (rows : List (List Str)) (idx r : Nat),
    r ∈ occupied_row_numbers idx rows
      ↔ ∃ i row, rows.get? i = some row ∧ idx + i + 1 ≠ 1 ∧
          spec_occupied row = true ∧ r = idx + i + 1 := by
  intro rows
  induction rows with
  | nil => intro idx r; simp [occupied_row_numbers]
  | cons row rest ih =>
    intro idx r
    rw [occupied_row_numbers, List.mem_append]
    constructor
    · rintro (h | h)
      · by_cases h1 : idx + 1 = 1
        · rw [if_pos h1] at h
          simp at h
        · rw [if_neg h1] at h
          by_cases h2 : spec_occupied row
          · rw [if_pos h2] at h
            simp at h
            exact ⟨0, row, rfl, by omega, h2, by omega⟩
          · rw [if_neg h2] at h
            simp at h
      · obtain ⟨i, row', hg, hne, hocc, hr⟩ := (ih (idx + 1) r).mp h
        exact ⟨i + 1, row', by simpa using hg, by omega, hocc, by omega⟩
    · rintro ⟨i, row', hg, hne, hocc, hr⟩
      cases i with
      | zero =>
        have hrow : row = row' := by simpa using hg
        left
        rw [if_neg (by omega : ¬ idx + 1 = 1), if_pos (by rw [hrow]; exact hocc)]
        simp only [List.mem_singleton]
        omega
      | succ i =>
        right
        exact (ih (idx + 1) r).mpr ⟨i, row', by simpa using hg, by omega, hocc, by omega⟩

/-- The scan loop computes the running maximum of the occupied row
numbers (the accumulator stays below the next row number, so plain
replacement is a maximum). -/
theorem last_row_aux_eq : ∀ (rows : List (List Str)) (idx last : Nat), last ≤ idx + 1 →
    last_row_aux idx rows last = (occupied_row_numbers idx rows).foldl max last := by
  intro rows
  induction rows with
  | nil => intro idx last _; rfl
  | cons row rest ih =>
    intro idx last hle
    rw [last_row_aux, occupied_row_numbers]
    by_cases h1 : idx + 1 = 1
    · rw [if_pos h1, if_pos h1]
      rw [List.nil_append]
      exact ih (idx + 1) last (by omega)
    · rw [if_neg h1, if_neg h1]
      rw [row_has_data_spec]
      by_cases h2 : spec_occupied row
      · rw [if_pos h2, if_pos h2]
        rw [List.cons_append, List.nil_append, List.foldl_cons]
        have hmax : max last (idx + 1) = idx + 1 := by omega
        rw [hmax]
        exact ih (idx + 1) (idx + 1) (by omega)
      · rw [if_neg h2, if_neg h2]
        rw [List.nil_append]
        exact ih (idx + 1) last (by omega)

/-- Claim C6: a non-header row is occupied iff its name cell is
non-blank or some product cell is non-blank and not the zero literal
(whitespace-stripped, as the code strips every cell before testing); on
a successful fetch the result is one past the highest occupied row
number (one past the maximum of the occupied non-header row numbers,
with 1 as the empty default); a ledger with customer data in row 5 only
and product data in row 7 only returns 8; and a failed scan returns the
fixed fallback row 526. -/
theorem find_next_available_row_spec :
    (∀ row_data : List Str, row_has_data row_data = spec_occupied row_data) ∧
    (∀ all_data : List (List Str),
      find_next_available_row (.ok all_data)
        = (occupied_row_numbers 0 all_data).foldl max 1 + 1) ∧
    (∀ (all_data : List (List Str)) (r : Nat),
      r ∈ occupied_row_numbers 0 all_data
        ↔ ∃ i row, all_data.get? i = some row ∧ i + 1 ≠ 1 ∧
            spec_occupied row = true ∧ r = i + 1) ∧
    find_next_available_row
        (.ok [[], [], [], [], ["Ana".toList], [],
              (List.replicate 10 [] ++ ["3".toList])]) = 8 ∧
    find_next_available_row .err = 526 := by
  refine ⟨row_has_data_spec, ?_, ?_, by decide, rfl⟩
  · intro all_data
    show last_row_aux 0 all_data 1 + 1
        = (occupied_row_numbers 0 all_data).foldl max 1 + 1
    rw [last_row_aux_eq all_data 0 1 (by omega)]
  · intro all_data r
    have h := mem_occupied_row_numbers all_data 0 r
    simpa using h

/-- The scan accumulator never exceeds the larger of its start value and
one past the last scanned row index. -/
theorem last_row_aux_le : ∀ (rows : List (List Str)) (idx last : Nat),
    last_row_aux idx rows last ≤ max last (idx + rows.length) := by
  intro rows
  induction rows with
  | nil => intro idx last; simp [last_row_aux]
  | cons row rest ih =>
    intro idx last
    rw [last_row_aux]
    by_cases h1 : idx + 1 = 1
    · rw [if_pos h1]
      have h := ih (idx + 1) last
      simp only [List.length_cons]
      omega
    · rw [if_neg h1]
      by_cases h2 : row_has_data row
      · rw [if_pos h2]
        have h := ih (idx + 1) (idx + 1)
        simp only [List.length_cons]
        omega
      · rw [if_neg h2]
        have h := ih (idx + 1) last
        simp only [List.length_cons]
        omega

/-- Claim C10: the scan reads only the fixed range D1:W2000 — worksheets
that agree on rows 1 through 2000 give the same result, so occupied rows
beyond row 2000 never affect it, and a successful scan returns at most
2001. -/
theorem find_next_row_range_bound (ws ws' : Nat → Nat → Str)
    (h : ∀ r c, r ≤ 2000 → ws r c = ws' r c) :
    find_next_available_row_ws ws = find_next_available_row_ws ws' ∧
    find_next_available_row_ws ws ≤ 2001 := by
  constructor
  · unfold find_next_available_row_ws
    have hfetch : fetch_d1_w2000 ws = fetch_d1_w2000 ws' := by
      unfold fetch_d1_w2000
      apply List.map_congr_left
      intro i hi
      apply List.map_congr_left
      intro j _
      exact h (i + 1) (j + 4) (by have := List.mem_range.mp hi; omega)
    rw [hfetch]
  · show last_row_aux 0 (fetch_d1_w2000 ws) 1 + 1 ≤ 2001
    have hlen : (fetch_d1_w2000 ws).length = 2000 := by
      unfold fetch_d1_w2000
      simp
    have hb := last_row_aux_le (fetch_d1_w2000 ws) 0 1
    rw [hlen] at hb
    omega

/-- The all-blank worksheet. -/
def blank_ws : Nat → Nat → Str := fun _ _ => []

/-- Claim C10 witness: the range property applied to the blank worksheet
(which trivially agrees with itself on rows 1..2000). -/
theorem find_next_row_range_bound_checked :
    find_next_available_row_ws blank_ws = find_next_available_row_ws blank_ws ∧
    find_next_available_row_ws blank_ws ≤ 2001 :=
  find_next_row_range_bound blank_ws blank_ws (fun _ _ _ => rfl)

/-!
Claim C7: machinery about the updates dict and the cell-level write.
-/

/-- Column letters the write may touch. -/
def update_cols : List Char :=
  ['C', 'D', 'E', 'G', 'H', 'J', 'K', 'N', 'O', 'P', 'Q', 'T', 'U', 'V', 'W']

/-- The corresponding 1-based column numbers. -/
def update_col_nums : List Nat := [3, 4, 5, 7, 8, 10, 11, 14, 15, 16, 17, 20, 21, 22, 23]

/-- Product column letters. -/
def product_letters : List Char := ['N', 'O', 'P', 'Q', 'T', 'U', 'V', 'W']

theorem update_cols_map_nums : update_cols.map col_num = update_col_nums := by decide

theorem col_num_inj_on :
    ∀ a ∈ update_cols, ∀ b ∈ update_cols, col_num a = col_num b → a = b := by decide

theorem product_letters_sub : ∀ c ∈ product_letters, c ∈ update_cols := by decide

/-- The dict keys, in insertion order. -/
def dict_keys (us : List (Char × CellVal)) : List Char := us.map fun kv => kv.1

/-- Keys after a dict assignment. -/
theorem dict_keys_dict_insert (k : Char) (v : CellVal) :
    ∀ us : List (Char × CellVal), ∀ k' ∈ dict_keys (dict_insert k v us),
      k' = k ∨ k' ∈ dict_keys us := by
  intro us
  induction us with
  | nil => intro k' h; simp [dict_insert, dict_keys] at h; exact Or.inl h
  | cons kv tl ih =>
    intro k' h
    rw [dict_insert] at h
    by_cases he : k = kv.1
    · rw [if_pos he] at h
      rcases List.mem_cons.mp h with rfl | h
      · exact Or.inl rfl
      · exact Or.inr (List.mem_cons_of_mem _ h)
    · rw [if_neg he] at h
      rcases List.mem_cons.mp h with rfl | h
      · exact Or.inr (List.mem_cons_self _ _)
      · rcases ih k' h with h | h
        · exact Or.inl h
        · exact Or.inr (List.mem_cons_of_mem _ h)

/-- Dict assignment preserves key distinctness. -/
theorem dict_insert_nodup (k : Char) (v : CellVal) :
    ∀ us : List (Char × CellVal), (dict_keys us).Nodup →
      (dict_keys (dict_insert k v us)).Nodup := by
  intro us
  induction us with
  | nil => intro _; simp [dict_insert, dict_keys]
  | cons kv tl ih =>
    intro h
    rw [dict_keys, List.map_cons, List.nodup_cons] at h
    rw [dict_insert]
    by_cases he : k = kv.1
    · rw [if_pos he]
      rw [dict_keys, List.map_cons, List.nodup_cons]
      exact ⟨he ▸ h.1, h.2⟩
    · rw [if_neg he]
      rw [dict_keys, List.map_cons, List.nodup_cons]
      refine ⟨?_, ih h.2⟩
      intro hmem
      rcases dict_keys_dict_insert k v tl kv.1 hmem with hc | hc
      · exact he hc.symm
      · exact h.1 hc

/-- Key-set invariant through dict assignments. -/
theorem dict_insert_inv {k : Char} (hk : k ∈ update_cols) {us : List (Char × CellVal)}
    (h : (dict_keys us).Nodup ∧ dict_keys us ⊆ update_cols) (v : CellVal) :
    (dict_keys (dict_insert k v us)).Nodup ∧ dict_keys (dict_insert k v us) ⊆ update_cols := by
  refine ⟨dict_insert_nodup k v us h.1, ?_⟩
  intro k' hmem
  rcases dict_keys_dict_insert k v us k' hmem with hc | hc
  · exact hc ▸ hk
  · exact h.2 hc

/-- Every column the product table maps to is a product letter. -/
theorem col_for_code_mem_prod {code : Str} {c : Char} (h : col_for_code code = some c) :
    c ∈ product_letters := by
  unfold col_for_code at h
  split_ifs at h <;> simp_all [product_letters] <;> subst h <;> decide

/-- Lookup of a key right after assigning it. -/
theorem find_dict_insert_self (k : Char) (v : CellVal) :
    ∀ us : List (Char × CellVal),
      (dict_insert k v us).find? (fun kv => kv.1 == k) = some (k, v) := by
  intro us
  induction us with
  | nil => simp [dict_insert]
  | cons kv tl ih =>
    rw [dict_insert]
    by_cases he : k = kv.1
    · rw [if_pos he]
      simp
    · rw [if_neg he]
      have hp : ((kv.1 == k) : Bool) = false := by
        simp
        exact fun hc => he hc.symm
      simp only [List.find?_cons, hp]
      exact ih

/-- Lookup of a different key is unchanged by an assignment. -/
theorem find_dict_insert_other {k k' : Char} (hne : k' ≠ k) (v : CellVal) :
    ∀ us : List (Char × CellVal),
      (dict_insert k v us).find? (fun kv => kv.1 == k')
        = us.find? (fun kv => kv.1 == k') := by
  intro us
  induction us with
  | nil =>
    rw [dict_insert]
    have hp : ((k == k') : Bool) = false := by
      simp
      exact fun hc => hne hc.symm
    simp only [List.find?_cons, hp]
  | cons kv tl ih =>
    rw [dict_insert]
    by_cases he : k = kv.1
    · rw [if_pos he]
      have hp1 : ((k == k') : Bool) = false := by
        simp
        exact fun hc => hne hc.symm
      have hp2 : ((kv.1 == k') : Bool) = false := by
        simp
        intro hc
        exact hne (he.trans hc).symm
      simp only [List.find?_cons, hp1, hp2]
    · rw [if_neg he]
      by_cases h2 : kv.1 = k'
      · have hp : ((kv.1 == k') : Bool) = true := by simp [h2]
        simp only [List.find?_cons, hp]
      · have hp : ((kv.1 == k') : Bool) = false := by simpa using h2
        simp only [List.find?_cons, hp]
        exact ih

/-- Spec-side final quantity for a product column: the dict keeps the
last assignment, i.e. the quantity of the last line mapped to the
column. -/
def last_qty (items : List OrderItem) (ch : Char) : Option Int :=
  items.foldl
    (fun acc it => if col_for_code it.product.code = some ch then some it.quantity else acc)
    none

/-- Accumulator form of `last_qty`. -/
theorem last_qty_acc (ch : Char) : ∀ (items : List OrderItem) (acc : Option Int),
    items.foldl (fun a it => if col_for_code it.product.code = some ch
        then some it.quantity else a) acc
      = match last_qty items ch with
        | some q => some q
        | none => acc := by
  intro items
  induction items with
  | nil => intro acc; rfl
  | cons it rest ih =>
    intro acc
    have hlq : last_qty (it :: rest) ch
        = rest.foldl (fun a it => if col_for_code it.product.code = some ch
            then some it.quantity else a)
            (if col_for_code it.product.code = some ch then some it.quantity else none) := rfl
    rw [List.foldl_cons, hlq]
    by_cases hc : col_for_code it.product.code = some ch
    · rw [if_pos hc, if_pos hc]
      rw [ih (some it.quantity)]
      cases hl : last_qty rest ch <;> rfl
    · rw [if_neg hc, if_neg hc]
      rw [ih acc]
      have hbase : rest.foldl (fun a it => if col_for_code it.product.code = some ch
          then some it.quantity else a) none = last_qty rest ch := rfl
      rw [hbase]

/-- Dict lookup of a product column after the product loop: the last
mapped quantity wins; otherwise the dict before the loop decides. -/
theorem find_product_fold (ch : Char) :
    ∀ (items : List OrderItem) (us : List (Char × CellVal)),
      (items.foldl product_step us).find? (fun kv => kv.1 == ch)
        = match last_qty items ch with
          | some q => some (ch, .vInt q)
          | none => us.find? (fun kv => kv.1 == ch) := by
  intro items
  induction items with
  | nil => intro us; rfl
  | cons it rest ih =>
    intro us
    have hlq : last_qty (it :: rest) ch
        = match last_qty rest ch with
          | some q => some q
          | none => (if col_for_code it.product.code = some ch
              then some it.quantity else none) := by
      have h1 : last_qty (it :: rest) ch
          = rest.foldl (fun a it => if col_for_code it.product.code = some ch
              then some it.quantity else a)
              (if col_for_code it.product.code = some ch then some it.quantity else none) := rfl
      rw [h1, last_qty_acc ch rest _]
    rw [List.foldl_cons, hlq]
    show (rest.foldl product_step (product_step us it)).find? (fun kv => kv.1 == ch) = _
    rw [ih (product_step us it)]
    unfold product_step
    cases hcol : col_for_code it.product.code with
    | none =>
      rw [if_neg (by simp : ¬ (none : Option Char) = some ch)]
      cases hl : last_qty rest ch <;> rfl
    | some c =>
      by_cases hc : c = ch
      · subst hc
        rw [if_pos rfl, find_dict_insert_self]
        cases hl : last_qty rest c <;> rfl
      · rw [if_neg (by simp [hc] : ¬ (some c : Option Char) = some ch)]
        rw [find_dict_insert_other (fun hcc => hc hcc.symm) _ us]
        cases hl : last_qty rest ch <;> rfl

/-- Dict lookup of a non-product key is unchanged by the product loop. -/
theorem find_product_fold_other {ch : Char} (hch : ∀ c ∈ product_letters, ch ≠ c) :
    ∀ (items : List OrderItem) (us : List (Char × CellVal)),
      (items.foldl product_step us).find? (fun kv => kv.1 == ch)
        = us.find? (fun kv => kv.1 == ch) := by
  intro items
  induction items with
  | nil => intro us; rfl
  | cons it rest ih =>
    intro us
    rw [List.foldl_cons, ih]
    unfold product_step
    cases hcol : col_for_code it.product.code with
    | none => rfl
    | some c => exact find_dict_insert_other (hch c (col_for_code_mem_prod hcol)) _ us

/-- The empty dict satisfies the key invariant. -/
theorem list_nil_inv :
    (dict_keys ([] : List (Char × CellVal))).Nodup ∧
      dict_keys ([] : List (Char × CellVal)) ⊆ update_cols := by
  constructor
  · exact List.nodup_nil
  · intro x hx
    simp [dict_keys] at hx

/-- The key invariant of the fixed part of the updates dict. -/
theorem base_updates_inv (order : ParsedOrder) (today : Str) :
    (dict_keys (base_updates order today)).Nodup ∧
      dict_keys (base_updates order today) ⊆ update_cols := by
  simp only [base_updates]
  by_cases hE : py_truthy order.auto_sold_by
  · by_cases hG : py_truthy order.payment_method
    · rw [if_pos hE, if_pos hG]
      exact dict_insert_inv (by decide) (dict_insert_inv (by decide) (dict_insert_inv
        (by decide) (dict_insert_inv (by decide) (dict_insert_inv (by decide)
          (dict_insert_inv (by decide) (dict_insert_inv (by decide) list_nil_inv _) _) _)
            _) _) _) _
    · rw [if_pos hE, if_neg hG]
      exact dict_insert_inv (by decide) (dict_insert_inv (by decide) (dict_insert_inv
        (by decide) (dict_insert_inv (by decide) (dict_insert_inv (by decide)
          (dict_insert_inv (by decide) list_nil_inv _) _) _) _) _) _
  · by_cases hG : py_truthy order.payment_method
    · rw [if_neg hE, if_pos hG]
      exact dict_insert_inv (by decide) (dict_insert_inv (by decide) (dict_insert_inv
        (by decide) (dict_insert_inv (by decide) (dict_insert_inv (by decide)
          (dict_insert_inv (by decide) list_nil_inv _) _) _) _) _) _
    · rw [if_neg hE, if_neg hG]
      exact dict_insert_inv (by decide) (dict_insert_inv (by decide) (dict_insert_inv
        (by decide) (dict_insert_inv (by decide) (dict_insert_inv (by decide)
          list_nil_inv _) _) _) _) _

/-- The key invariant of the full updates dict. -/
theorem build_updates_inv (order : ParsedOrder) (today : Str) :
    (dict_keys (build_updates order today)).Nodup ∧
      dict_keys (build_updates order today) ⊆ update_cols := by
  have hfold : ∀ (items : List OrderItem) (us : List (Char × CellVal)),
      (dict_keys us).Nodup ∧ dict_keys us ⊆ update_cols →
        (dict_keys (items.foldl product_step us)).Nodup ∧
          dict_keys (items.foldl product_step us) ⊆ update_cols := by
    intro items
    induction items with
    | nil => intro us h; exact h
    | cons it rest ih =>
      intro us h
      rw [List.foldl_cons]
      apply ih
      unfold product_step
      cases hcol : col_for_code it.product.code with
      | none => exact h
      | some c =>
        exact dict_insert_inv (product_letters_sub c (col_for_code_mem_prod hcol)) h _
  exact hfold order.items _ (base_updates_inv order today)

/-- Dict lookup of the date key. -/
theorem find_base_C (order : ParsedOrder) (today : Str) :
    (base_updates order today).find? (fun kv => kv.1 == 'C') = some ('C', .vStr today) := by
  simp only [base_updates]
  by_cases hE : py_truthy order.auto_sold_by <;> by_cases hG : py_truthy order.payment_method <;>
    simp [hE, hG, find_dict_insert_other, find_dict_insert_self]

/-- Dict lookup of the customer key. -/
theorem find_base_D (order : ParsedOrder) (today : Str) :
    (base_updates order today).find? (fun kv => kv.1 == 'D')
      = some ('D', .vStr (py_or_str order.customer_name ("Unknown".toList))) := by
  simp only [base_updates]
  by_cases hE : py_truthy order.auto_sold_by <;> by_cases hG : py_truthy order.payment_method <;>
    simp [hE, hG, find_dict_insert_other, find_dict_insert_self]

/-- Dict lookup of the payment-status key. -/
theorem find_base_H (order : ParsedOrder) (today : Str) :
    (base_updates order today).find? (fun kv => kv.1 == 'H')
      = some ('H', .vStr ("Unpaid".toList)) := by
  simp only [base_updates]
  by_cases hE : py_truthy order.auto_sold_by <;> by_cases hG : py_truthy order.payment_method <;>
    simp [hE, hG, find_dict_insert_other, find_dict_insert_self]

/-- Dict lookup of the note key. -/
theorem find_base_J (order : ParsedOrder) (today : Str) :
    (base_updates order today).find? (fun kv => kv.1 == 'J')
      = some ('J', .vStr ("ü§ñ".toList)) := by
  simp only [base_updates]
  by_cases hE : py_truthy order.auto_sold_by <;> by_cases hG : py_truthy order.payment_method <;>
    simp [hE, hG, find_dict_insert_other, find_dict_insert_self]

/-- Dict lookup of the order-type key. -/
theorem find_base_K (order : ParsedOrder) (today : Str) :
    (base_updates order today).find? (fun kv => kv.1 == 'K')
      = some ('K', .vStr ("Reserved".toList)) := by
  simp only [base_updates]
  by_cases hE : py_truthy order.auto_sold_by <;> by_cases hG : py_truthy order.payment_method <;>
    simp [hE, hG, find_dict_insert_other, find_dict_insert_self]

/-- Dict lookup of the seller key: present iff the seller field is
truthy. -/
theorem find_base_E (order : ParsedOrder) (today : Str) :
    (base_updates order today).find? (fun kv => kv.1 == 'E')
      = (if py_truthy order.auto_sold_by
         then some ('E', .vStr ((order.auto_sold_by).getD [])) else none) := by
  simp only [base_updates]
  by_cases hE : py_truthy order.auto_sold_by <;> by_cases hG : py_truthy order.payment_method <;>
    simp [hE, hG, find_dict_insert_other, find_dict_insert_self]

/-- Dict lookup of the payment-method key: present iff the payment field
is truthy. -/
theorem find_base_G (order : ParsedOrder) (today : Str) :
    (base_updates order today).find? (fun kv => kv.1 == 'G')
      = (if py_truthy order.payment_method
         then some ('G', .vStr ((order.payment_method).getD [])) else none) := by
  simp only [base_updates]
  by_cases hE : py_truthy order.auto_sold_by <;> by_cases hG : py_truthy order.payment_method <;>
    simp [hE, hG, find_dict_insert_other, find_dict_insert_self]

/-- Product letters never occur in the fixed part of the dict. -/
theorem find_base_prod_none (order : ParsedOrder) (today : Str) {ch : Char}
    (hch : ch ∈ product_letters) :
    (base_updates order today).find? (fun kv => kv.1 == ch) = none := by
  have hne : ch ≠ 'C' ∧ ch ≠ 'D' ∧ ch ≠ 'E' ∧ ch ≠ 'G' ∧ ch ≠ 'H' ∧ ch ≠ 'J' ∧ ch ≠ 'K' := by
    fin_cases hch <;> decide
  obtain ⟨h1, h2, h3, h4, h5, h6, h7⟩ := hne
  simp only [base_updates]
  by_cases hE : py_truthy order.auto_sold_by
  · by_cases hG : py_truthy order.payment_method
    · rw [if_pos hE, if_pos hG]
      rw [find_dict_insert_other h7, find_dict_insert_other h6, find_dict_insert_other h4,
        find_dict_insert_other h5, find_dict_insert_other h3, find_dict_insert_other h2,
        find_dict_insert_other h1]
      rfl
    · rw [if_pos hE, if_neg hG]
      rw [find_dict_insert_other h7, find_dict_insert_other h6, find_dict_insert_other h5,
        find_dict_insert_other h3, find_dict_insert_other h2, find_dict_insert_other h1]
      rfl
  · by_cases hG : py_truthy order.payment_method
    · rw [if_neg hE, if_pos hG]
      rw [find_dict_insert_other h7, find_dict_insert_other h6, find_dict_insert_other h4,
        find_dict_insert_other h5, find_dict_insert_other h2, find_dict_insert_other h1]
      rfl
    · rw [if_neg hE, if_neg hG]
      rw [find_dict_insert_other h7, find_dict_insert_other h6, find_dict_insert_other h5,
        find_dict_insert_other h2, find_dict_insert_other h1]
      rfl

/-- Predicates equal on the members give equal `find?`. -/
theorem find_congr_mem {p q : (Char × CellVal) → Bool} :
    ∀ {us : List (Char × CellVal)}, (∀ kv ∈ us, p kv = q kv) → us.find? p = us.find? q := by
  intro us
  induction us with
  | nil => intro _; rfl
  | cons kv tl ih =>
    intro h
    rw [List.find?_cons, List.find?_cons, h kv (List.mem_cons_self kv tl),
      ih fun kv' h' => h kv' (List.mem_cons_of_mem kv h')]

/-- Over keys from the letter set, searching by column number is
searching by letter. -/
theorem find_colnum_to_key {us : List (Char × CellVal)} (hsub : dict_keys us ⊆ update_cols)
    {ch : Char} (hch : ch ∈ update_cols) :
    us.find? (fun kv => col_num kv.1 == col_num ch) = us.find? (fun kv => kv.1 == ch) := by
  apply find_congr_mem
  intro kv hkv
  have hk : kv.1 ∈ update_cols := hsub (List.mem_map_of_mem _ hkv)
  by_cases he : kv.1 = ch
  · simp [he]
  · have hne : col_num kv.1 ≠ col_num ch := fun hc => he (col_num_inj_on kv.1 hk ch hch hc)
    simp [he, hne]

/-- A column number outside the touched set is never found. -/
theorem find_colnum_none {us : List (Char × CellVal)} (hsub : dict_keys us ⊆ update_cols)
    {c : Nat} (hc : c ∉ update_col_nums) :
    us.find? (fun kv => col_num kv.1 == c) = none := by
  rw [List.find?_eq_none]
  intro kv hkv
  simp only [beq_iff_eq]
  intro hcc
  apply hc
  rw [← hcc, ← update_cols_map_nums]
  exact List.mem_map_of_mem col_num (hsub (List.mem_map_of_mem _ hkv))

/-- Rows other than the target are never written. -/
theorem apply_updates_other_row (row : Nat) :
    ∀ (us : List (Char × CellVal)) (ws : Sheet) (r c : Nat), r ≠ row →
      us.foldl
          (fun w kv => if cell_truthy kv.2 then set_cell w row (col_num kv.1) kv.2 else w)
          ws r c
        = ws r c := by
  intro us
  induction us with
  | nil => intro ws r c _; rfl
  | cons kv tl ih =>
    intro ws r c hr
    rw [List.foldl_cons, ih _ r c hr]
    by_cases ht : cell_truthy kv.2
    · rw [if_pos ht]
      simp [set_cell, hr]
    · rw [if_neg ht]

/-- Value of a cell of the target row after the write: the dict entry of
that column decides, with non-truthy values skipped. -/
theorem apply_updates_at_row (row : Nat) :
    ∀ (us : List (Char × CellVal)) (ws : Sheet), (dict_keys us).Nodup →
      dict_keys us ⊆ update_cols → ∀ c : Nat,
      us.foldl
          (fun w kv => if cell_truthy kv.2 then set_cell w row (col_num kv.1) kv.2 else w)
          ws row c
        = match us.find? (fun kv => col_num kv.1 == c) with
          | some kv => if cell_truthy kv.2 then kv.2 else ws row c
          | none => ws row c := by
  intro us
  induction us with
  | nil => intro ws _ _ c; rfl
  | cons kv tl ih =>
    intro ws hnd hsub c
    have hnd' : (dict_keys tl).Nodup := by
      rw [dict_keys, List.map_cons, List.nodup_cons] at hnd
      exact hnd.2
    have hkhd : kv.1 ∉ dict_keys tl := by
      rw [dict_keys, List.map_cons, List.nodup_cons] at hnd
      exact hnd.1
    have hsub' : dict_keys tl ⊆ update_cols := by
      intro x hx
      apply hsub
      rw [dict_keys, List.map_cons]
      exact List.mem_cons_of_mem _ hx
    have hkv1 : kv.1 ∈ update_cols := by
      apply hsub
      rw [dict_keys, List.map_cons]
      exact List.mem_cons_self _ _
    rw [List.foldl_cons, List.find?_cons]
    by_cases hc : col_num kv.1 = c
    · have hp : ((col_num kv.1 == c) : Bool) = true := by simp [hc]
      rw [hp]
      have hfind : tl.find? (fun kv' => col_num kv'.1 == c) = none := by
        rw [List.find?_eq_none]
        intro kv' hkv'
        simp only [beq_iff_eq]
        intro hcc
        have h1 : kv'.1 ∈ update_cols := hsub' (List.mem_map_of_mem _ hkv')
        have heq : kv'.1 = kv.1 := col_num_inj_on kv'.1 h1 kv.1 hkv1 (by rw [hcc, hc])
        exact hkhd (heq ▸ List.mem_map_of_mem _ hkv')
      rw [ih _ hnd' hsub' c, hfind]
      by_cases ht : cell_truthy kv.2
      · simp [ht, set_cell, hc]
      · simp [ht]
    · have hp : ((col_num kv.1 == c) : Bool) = false := by simp [hc]
      rw [hp]
      have hws : (if cell_truthy kv.2 then set_cell ws row (col_num kv.1) kv.2 else ws) row c
          = ws row c := by
        by_cases ht : cell_truthy kv.2
        · rw [if_pos ht]
          simp [set_cell]
          intro hcc
          exact absurd hcc.symm hc
        · rw [if_neg ht]
      rw [ih _ hnd' hsub' c, hws]

/-- A value guarded by `or "Unknown"` is always truthy. -/
theorem cell_truthy_or_unknown (o : Option Str) :
    cell_truthy (.vStr (py_or_str o ("Unknown".toList))) = true := by
  cases o with
  | none => rfl
  | some s =>
    simp only [py_or_str]
    by_cases hs : s.isEmpty
    · rw [if_pos hs]
      rfl
    · rw [if_neg hs]
      cases he : s.isEmpty with
      | true => exact absurd he hs
      | false => simp [cell_truthy, he]

/-- A truthy optional string stays truthy after `getD`. -/
theorem cell_truthy_getD {o : Option Str} (h : py_truthy o = true) :
    cell_truthy (.vStr (o.getD [])) = true := by
  cases o with
  | none => exact absurd h (by decide)
  | some s => exact h

/-- The product loop leaves the lookup of a non-product key to the fixed
part of the dict. -/
theorem find_updates_base (order : ParsedOrder) (today : Str) (ch : Char)
    (hch : ∀ c ∈ product_letters, ch ≠ c) :
    (build_updates order today).find? (fun kv => kv.1 == ch)
      = (base_updates order today).find? (fun kv => kv.1 == ch) := by
  simp only [build_updates]
  exact find_product_fold_other hch order.items _

/-- Cell of a touched column of the target row after the write, expressed
through the dict lookup of its letter. -/
theorem update_cell_eq (order : ParsedOrder) (row : Nat) (today : Str) (ws : Sheet)
    (ch : Char) (hch : ch ∈ update_cols) :
    update_order_simple order row today ws row (col_num ch)
      = match (build_updates order today).find? (fun kv => kv.1 == ch) with
        | some kv => if cell_truthy kv.2 then kv.2 else ws row (col_num ch)
        | none => ws row (col_num ch) := by
  obtain ⟨hnd, hsub⟩ := build_updates_inv order today
  have h := apply_updates_at_row row (build_updates order today) ws hnd hsub (col_num ch)
  rw [find_colnum_to_key hsub hch] at h
  exact h

/-- Claim C7 (amended): for a non-empty date string the write touches only
the target row, and in it only columns C, D, E, G, H, J, K and the eight
product columns N, O, P, Q, T, U, V, W: C gets the order date, D the
customer name with default Unknown, E the seller only when one is
assigned, G the payment method only when one is detected, H always
Unpaid, J a fixed note value and K the literal Reserved (two writes the
original claim omits), and each product column the quantity of the last
order line mapped to it — skipped (existing value kept) when that final
quantity is 0; every cell of any other column, and every cell of any
other row, keeps its previous value. -/
theorem update_order_simple_frame (order : ParsedOrder) (row : Nat) (today : Str)
    (ws : Sheet) (htoday : today ≠ []) :
    (∀ r c, r ≠ row → update_order_simple order row today ws r c = ws r c) ∧
    (∀ c, c ∉ update_col_nums → update_order_simple order row today ws row c = ws row c) ∧
    update_order_simple order row today ws row (col_num 'C') = .vStr today ∧
    update_order_simple order row today ws row (col_num 'D')
      = .vStr (py_or_str order.customer_name ("Unknown".toList)) ∧
    update_order_simple order row today ws row (col_num 'E')
      = (if py_truthy order.auto_sold_by then .vStr ((order.auto_sold_by).getD [])
         else ws row (col_num 'E')) ∧
    update_order_simple order row today ws row (col_num 'G')
      = (if py_truthy order.payment_method then .vStr ((order.payment_method).getD [])
         else ws row (col_num 'G')) ∧
    update_order_simple order row today ws row (col_num 'H') = .vStr ("Unpaid".toList) ∧
    update_order_simple order row today ws row (col_num 'J') = .vStr ("ü§ñ".toList) ∧
    update_order_simple order row today ws row (col_num 'K') = .vStr ("Reserved".toList) ∧
    ∀ ch ∈ product_letters,
      update_order_simple order row today ws row (col_num ch)
        = match last_qty order.items ch with
          | some q => if q = 0 then ws row (col_num ch) else .vInt q
          | none => ws row (col_num ch) := by
  obtain ⟨hnd, hsub⟩ := build_updates_inv order today
  have htt : cell_truthy (.vStr today) = true := by
    cases today with
    | nil => exact absurd rfl htoday
    | cons a t => rfl
  refine ⟨?_, ?_, ?_, ?_, ?_, ?_, ?_, ?_, ?_, ?_⟩
  · intro r c hr
    exact apply_updates_other_row row (build_updates order today) ws r c hr
  · intro c hcn
    have h := apply_updates_at_row row (build_updates order today) ws hnd hsub c
    rw [find_colnum_none hsub hcn] at h
    exact h
  · have h := update_cell_eq order row today ws 'C' (by decide)
    rw [find_updates_base order today 'C' (by decide), find_base_C] at h
    rw [h]
    simp [htt]
  · have h := update_cell_eq order row today ws 'D' (by decide)
    rw [find_updates_base order today 'D' (by decide), find_base_D] at h
    rw [h]
    exact if_pos (cell_truthy_or_unknown order.customer_name)
  · have h := update_cell_eq order row today ws 'E' (by decide)
    rw [find_updates_base order today 'E' (by decide), find_base_E] at h
    rw [h]
    by_cases hso : py_truthy order.auto_sold_by
    · simp [hso, cell_truthy_getD hso]
    · simp [hso]
  · have h := update_cell_eq order row today ws 'G' (by decide)
    rw [find_updates_base order today 'G' (by decide), find_base_G] at h
    rw [h]
    by_cases hpm : py_truthy order.payment_method
    · simp [hpm, cell_truthy_getD hpm]
    · simp [hpm]
  · have h := update_cell_eq order row today ws 'H' (by decide)
    rw [find_updates_base order today 'H' (by decide), find_base_H] at h
    rw [h]
    have ht : cell_truthy (.vStr ("Unpaid".toList)) = true := by decide
    exact if_pos ht
  · have h := update_cell_eq order row today ws 'J' (by decide)
    rw [find_updates_base order today 'J' (by decide), find_base_J] at h
    rw [h]
    have ht : cell_truthy (.vStr ("ü§ñ".toList)) = true := by decide
    exact if_pos ht
  · have h := update_cell_eq order row today ws 'K' (by decide)
    rw [find_updates_base order today 'K' (by decide), find_base_K] at h
    rw [h]
    have ht : cell_truthy (.vStr ("Reserved".toList)) = true := by decide
    exact if_pos ht
  · intro ch hch
    have h := update_cell_eq order row today ws ch (product_letters_sub ch hch)
    have hfind : (build_updates order today).find? (fun kv => kv.1 == ch)
        = match last_qty order.items ch with
          | some q => some (ch, .vInt q)
          | none => none := by
      simp only [build_updates]
      rw [find_product_fold ch order.items _, find_base_prod_none order today hch]
    rw [hfind] at h
    rw [h]
    cases hl : last_qty order.items ch with
    | none => rfl
    | some q =>
      by_cases hq : q = 0
      · simp [hq, cell_truthy]
      · simp [hq, cell_truthy]

/-- Claim C7 counterexample: even for an empty order the write also sets
columns J (10) and K (11) of the target row, which the original claim's
column list excludes — a worksheet holding a formula string in every
cell loses the ones in those two columns. -/
theorem update_order_simple_extra_cols_cex :
    update_order_simple ⟨none, [], 0, [], none, none, none⟩ 2 ("2026-10-12".toList)
        (fun _ _ => .vStr ("=SUM(A1:B1)".toList)) 2 10
      = .vStr ("ü§ñ".toList) ∧
    update_order_simple ⟨none, [], 0, [], none, none, none⟩ 2 ("2026-10-12".toList)
        (fun _ _ => .vStr ("=SUM(A1:B1)".toList)) 2 11
      = .vStr ("Reserved".toList) ∧
    ("ü§ñ".toList : Str) ≠ ("=SUM(A1:B1)".toList : Str) ∧
    ("Reserved".toList : Str) ≠ ("=SUM(A1:B1)".toList : Str) := by
  refine ⟨by decide, by decide, by decide, by decide⟩

/-- Claim C7 witness: the frame properties applied at a concrete order,
row and worksheet — an untouched row keeps its value, an untouched
column keeps its value, and the date lands in column C. -/
theorem update_order_simple_frame_checked :
    ("2026-10-12".toList : Str) ≠ [] ∧
    update_order_simple ⟨none, [], 0, [], none, none, none⟩ 2 ("2026-10-12".toList)
        (fun _ _ => .vStr ("=SUM(A1:B1)".toList)) 5 26
      = .vStr ("=SUM(A1:B1)".toList) ∧
    update_order_simple ⟨none, [], 0, [], none, none, none⟩ 2 ("2026-10-12".toList)
        (fun _ _ => .vStr ("=SUM(A1:B1)".toList)) 2 13
      = .vStr ("=SUM(A1:B1)".toList) ∧
    update_order_simple ⟨none, [], 0, [], none, none, none⟩ 2 ("2026-10-12".toList)
        (fun _ _ => .vStr ("=SUM(A1:B1)".toList)) 2 (col_num 'C')
      = .vStr ("2026-10-12".toList) := by
  have h := update_order_simple_frame ⟨none, [], 0, [], none, none, none⟩ 2
    ("2026-10-12".toList) (fun _ _ => .vStr ("=SUM(A1:B1)".toList)) (by decide)
  exact ⟨by decide, h.1 5 26 (by decide), h.2.1 13 (by decide), h.2.2.1⟩
